import Mathlib

/-!
# libyami adapter for FFmpeg: queue, worker life cycle and teardown

A shallow embedding of `libavcodec/libyami.cpp`.

The program has two threads of control per session: the caller of
`yami_dec_frame` / `yami_enc_frame` / `yami_*_close`, and the worker threads
started by `pthread_create` (`decodeThread` / `encodeThread`).  The embedding is
an interleaving semantics: every thread is a program counter, a step function
executes the next block of one thread, and a schedule is a list of actions.

Granularity of a step:
* a block that runs under `in_mutex` (the admission test and `push_back`; the
  worker's emptiness tests and `front()`) is one step;
* the status `switch` under `mutex_` is one step;
* `pop_front()` in the worker is NOT under `in_mutex` in the source
  (libyami.cpp:236, 768) and is a step of its own;
* each engine call (`decode`, `encode`, `getOutput`) is one step, its result is
  supplied by the action (the engine is an external collaborator);
* `pthread_cond_wait` may return at any time (POSIX permits spurious wake-ups;
  the source re-tests emptiness after it for exactly that reason).

Not modelled: allocation failure (`AVERROR(ENOMEM)` returns), the debug
counters, logging, and pixel data.
-/

namespace Yami

/-! ## Data model -/

/-- The enums `DecodeThreadStatus` and `EncodeThreadStatus` (libyami.cpp:52-64):
the same four enumerators in the same order. -/
inductive ThreadStatus
  | NOT_INIT
  | RUNING
  | GOT_EOS
  | EXIT
  deriving DecidableEq, Repr

/-- The integer value of an enumerator (`NOT_INIT = 0`, then counting up). -/
def ThreadStatus.toNat : ThreadStatus → Nat
  | .NOT_INIT => 0
  | .RUNING => 1
  | .GOT_EOS => 2
  | .EXIT => 3

/-- The constant `QUEUE_MAX_SIZE` (libyami.cpp:68), used by `yami_dec_frame`. -/
def QUEUE_MAX_SIZE : Nat := 8

/-- The constant `QUEUE_MIN_SIZE` (libyami.cpp:69), used by `yami_enc_frame`. -/
def QUEUE_MIN_SIZE : Nat := 8

/-- The fields of `AVPacket` that `yami_dec_frame` reads. -/
structure AVPacket where
  /-- Whether `avpkt->data` is a non-null pointer. -/
  data : Bool
  /-- The value `avpkt->size`. -/
  size : Nat
  /-- The value `avpkt->pts`. -/
  pts : Nat
  deriving DecidableEq, Repr

/-- The `VideoDecodeBuffer` that `yami_dec_frame` fills from the packet
(libyami.cpp:278-287). -/
structure VideoDecodeBuffer where
  /-- The field `in_buffer->size`. -/
  size : Nat
  /-- The field `in_buffer->timeStamp`. -/
  timeStamp : Nat
  deriving DecidableEq, Repr

/-- The fields of an `AVFrame` that the encode path reads. -/
structure AVFrame where
  /-- The presentation time stamp, which identifies the frame here. -/
  pts : Nat
  /-- Whether `frame->format == AV_PIX_FMT_YAMI` (zero-copy mode). -/
  yami_format : Bool
  deriving DecidableEq, Repr

/-- Modelled from the spec: the result of one engine submission (section 6:
Accepted, Busy-retry-immediately, FormatChanged, Failed(code)).  The libyami
headers that declare `Decode_Status` / `Encode_Status` are not among the
sources; the code only tests `== DECODE_FORMAT_CHANGE`, `== ENCODE_IS_BUSY`
and `< 0`. -/
inductive SubmitResult
  | Accepted
  | Busy
  | FormatChanged
  | Failed (code : Nat)
  deriving DecidableEq, Repr

/-- Modelled from the spec: the result of one `getOutput` call (section 6:
Ready, NotReady, NoMoreOutput).  The code only tests `== RENDER_SUCCESS` /
`== ENCODE_SUCCESS`, which is `Ready`. -/
inductive FetchResult
  | Ready
  | NotReady
  | NoMoreOutput
  deriving DecidableEq, Repr

/-- Program counter of one worker thread (`decodeThread` / `encodeThread`). -/
inductive WorkerPc (α : Type)
  /-- At the head of `while (1)`, before `pthread_mutex_lock(&s->in_mutex)`. -/
  | loopTop
  /-- Blocked in `pthread_cond_wait(&s->in_cond, &s->in_mutex)`. -/
  | condWait
  /-- Holds `in_buffer = front()`, about to make the first engine call on it. -/
  | submit (b : α)
  /-- About to call the engine again on the same unit (decode: after
  `DECODE_FORMAT_CHANGE`; encode: after `ENCODE_IS_BUSY`). -/
  | resubmit (b : α)
  /-- The engine calls on `b` are over, about to `pop_front()` and free the unit. -/
  | popFront (b : α)
  /-- After `break`, about to store `*_THREAD_EXIT` under `mutex_`. -/
  | setExit
  /-- The thread function has returned. -/
  | returned
  deriving DecidableEq, Repr

/-- Program counter of the calling thread; `ι` is the argument of the call. -/
inductive CallerPc (ι : Type)
  /-- Between two calls. -/
  | idle
  /-- At the head of the admission loop (libyami.cpp:292, 942). -/
  | enqueue (inp : ι)
  /-- Before the status `switch` (libyami.cpp:310, 962). -/
  | statusUpdate (inp : ι)
  /-- At the head of the output loop body (libyami.cpp:347, 986). -/
  | getOutput (inp : ι)
  /-- Decode only: after `usleep(10000); continue;`, at the loop condition
  (libyami.cpp:361). -/
  | pumpCond (inp : ι)
  /-- At the head of the wait loop of close (libyami.cpp:453, 1008). -/
  | closeWait
  /-- After the wait loop of close (libyami.cpp:463, 1018). -/
  | closeRelease
  /-- Close has returned. -/
  | closed
  deriving DecidableEq, Repr

/-- History of a session; no step reads it. -/
inductive Event (α : Type)
  /-- The caller ran `in_queue->push_back(b)`. -/
  | push (b : α)
  /-- The caller ran `pthread_create`; `w` is the index of the new thread. -/
  | spawn (w : Nat)
  /-- Worker `w` went into `pthread_cond_wait`. -/
  | wait (w : Nat)
  /-- Worker `w` left its loop through `break`. -/
  | leave (w : Nat)
  /-- Worker `w` called the engine on `b`; `again` tells a repeated call on
  the unit from the first one. -/
  | submit (w : Nat) (b : α) (again : Bool)
  /-- Worker `w`, holding `held`, ran `pop_front()`, which removed `removed`. -/
  | pop (w : Nat) (held : α) (removed : α)
  /-- Worker `w` stored `*_THREAD_EXIT` and returned. -/
  | exit (w : Nat)
  /-- The caller ran `getOutput`. -/
  | fetch (r : FetchResult)
  /-- A call returned `code`, having stored `got` in `*got_frame` /
  `*got_packet` (`none`: not written by this call). -/
  | ret (code : Int) (got : Option Bool)
  /-- Close stopped and released the engine. -/
  | release
  /-- Close freed `n` queued units and deleted the queue. -/
  | deleteQueue (n : Nat)
  deriving DecidableEq, Repr

/-- The shared state of one session (`YamiDecContext` / `YamiEncContext`)
together with the program counters of its threads. -/
structure Session (ι α : Type) where
  /-- The field `decode_status` / `encode_status`. -/
  status : ThreadStatus
  /-- The deque `*in_queue`, front first. -/
  in_queue : List α
  /-- Whether `s->decoder` / `s->encoder` is non-null. -/
  engine : Bool
  /-- Whether `s->format_info` is non-null (decode). -/
  format_info : Bool
  /-- Whether `delete s->in_queue` has run. -/
  queue_deleted : Bool
  /-- The calling thread. -/
  caller : CallerPc ι
  /-- Every thread created so far, by index of creation. -/
  workers : List (WorkerPc α)
  /-- History. -/
  trace : List (Event α)
  deriving DecidableEq, Repr

/-- One action of a schedule. -/
inductive Action (ι : Type)
  /-- The caller enters `yami_dec_frame` / `yami_enc_frame` with `inp`. -/
  | call (inp : ι)
  /-- The caller enters `yami_dec_close` / `yami_enc_close`. -/
  | close
  /-- The calling thread runs its next block; `out` is what `getOutput`
  returns if that block calls it. -/
  | caller (out : FetchResult)
  /-- Worker `w` runs its next block; `r` is what the engine returns if that
  block calls it. -/
  | worker (w : Nat) (r : SubmitResult)
  deriving DecidableEq, Repr

/-- Store a new program counter for worker `w`. -/
def Session.setWorker {ι α : Type} (s : Session ι α) (w : Nat) (pc : WorkerPc α) :
    Session ι α :=
  { s with workers := s.workers.set w pc }

/-- Append an event to the history. -/
def Session.log {ι α : Type} (s : Session ι α) (e : Event α) : Session ι α :=
  { s with trace := s.trace ++ [e] }

/-- A thread is alive from `pthread_create` until its function returns. -/
def WorkerPc.alive {α : Type} : WorkerPc α → Bool
  | .returned => false
  | _ => true

/-- The number of worker threads alive. -/
def Session.liveWorkers {ι α : Type} (s : Session ι α) : Nat :=
  (s.workers.filter WorkerPc.alive).length

/-- Run a schedule; `none` when an action is not enabled (or undefined). -/
def run {σ A : Type} (step : σ → A → Option σ) : σ → List A → Option σ
  | s, [] => some s
  | s, a :: as =>
    match step s a with
    | none => none
    | some t => run step t as

/-! ## Decode path -/

/-- A decode session. -/
abbrev DecSession := Session AVPacket VideoDecodeBuffer

/-- The session after a successful `yami_dec_init` (libyami.cpp:172-184); the
private data is zero-filled by the framework, so `format_info` is null. -/
def dec_open : DecSession :=
  { status := .NOT_INIT, in_queue := [], engine := true, format_info := false,
    queue_deleted := false, caller := .idle, workers := [], trace := [] }

/-- The buffer `yami_dec_frame` allocates for a packet (libyami.cpp:278-287). -/
def in_buffer (pkt : AVPacket) : VideoDecodeBuffer :=
  { size := pkt.size, timeStamp := pkt.pts }

/-- The status `switch` of `yami_dec_frame` (libyami.cpp:311-329): the new
status and whether `pthread_create` is called. -/
def dec_status_switch (st : ThreadStatus) (pkt : AVPacket) (queue_empty : Bool) :
    ThreadStatus × Bool :=
  match st with
  | .NOT_INIT | .EXIT =>
    if pkt.data && pkt.size != 0 then (.RUNING, true) else (st, false)
  | .RUNING =>
    if !pkt.data || pkt.size == 0 then (.GOT_EOS, false) else (st, false)
  | .GOT_EOS =>
    if queue_empty then (.NOT_INIT, false) else (st, false)

/-- One block of `decodeThread` (libyami.cpp:187-246) for worker `w`; `r` is
the result of `decoder->decode` when the block calls it.  The locked block at
the loop head (196-215) either takes `front()`, or breaks on an empty queue in
status `GOT_EOS`, or waits; the block after `pthread_cond_wait` re-tests
emptiness (207).  `none`: there is no such thread, it has returned, or the
block would touch the deleted queue, the released engine or the front of an
empty deque (undefined in the source). -/
def decodeThread (s : DecSession) (w : Nat) (r : SubmitResult) : Option DecSession :=
  match s.workers[w]? with
  | none => none
  | some .loopTop =>
    if s.queue_deleted then none else
    match s.in_queue with
    | [] =>
      if s.status = .GOT_EOS then some ((s.setWorker w .setExit).log (.leave w))
      else some ((s.setWorker w .condWait).log (.wait w))
    | b :: _ => some (s.setWorker w (.submit b))
  | some .condWait =>
    if s.queue_deleted then none else
    match s.in_queue with
    | [] => some (s.setWorker w .loopTop)
    | b :: _ => some (s.setWorker w (.submit b))
  | some (.submit b) =>
    if !s.engine then none else
    if r = .FormatChanged then
      some ({ s with format_info := true }.setWorker w (.resubmit b) |>.log (.submit w b false))
    else some ((s.setWorker w (.popFront b)).log (.submit w b false))
  | some (.resubmit b) =>
    if !s.engine then none else
    some ((s.setWorker w (.popFront b)).log (.submit w b true))
  | some (.popFront b) =>
    if s.queue_deleted then none else
    match s.in_queue with
    | [] => none
    | x :: rest =>
      some ({ s with in_queue := rest }.setWorker w .loopTop |>.log (.pop w b x))
  | some .setExit =>
    some ({ s with status := .EXIT }.setWorker w .returned |>.log (.exit w))
  | some .returned => none

/-- One block of `yami_dec_frame` (libyami.cpp:264-446) after its entry: one
pass of the admission loop (292-306), the status switch (310-330), one pass of
the output loop body (347-360), or its loop condition after `continue` (361).
`out` is the result of `decoder->getOutput` when the block calls it. -/
def yami_dec_frame (s : DecSession) (out : FetchResult) : Option DecSession :=
  match s.caller with
  | .enqueue pkt =>
    if s.status.toNat < ThreadStatus.GOT_EOS.toNat then
      if s.in_queue.length < QUEUE_MAX_SIZE then
        some ({ s with in_queue := s.in_queue ++ [in_buffer pkt],
                       caller := .statusUpdate pkt }.log (.push (in_buffer pkt)))
      else some s
    else some { s with caller := .statusUpdate pkt }
  | .statusUpdate pkt =>
    let u := dec_status_switch s.status pkt s.in_queue.isEmpty
    if u.2 then
      some ({ s with status := u.1, caller := .getOutput pkt,
                     workers := s.workers ++ [WorkerPc.loopTop] }.log (.spawn s.workers.length))
    else some { s with status := u.1, caller := .getOutput pkt }
  | .getOutput pkt =>
    if !s.format_info then some { s with caller := .pumpCond pkt }
    else if out = .Ready then
      some (({ s with caller := .idle }.log (.fetch out)).log (.ret pkt.size (some true)))
    else
      some (({ s with caller := .idle }.log (.fetch out)).log (.ret pkt.size (some false)))
  | .pumpCond pkt =>
    if s.status = .RUNING then some { s with caller := .getOutput pkt }
    else some ({ s with caller := .idle }.log (.ret pkt.size none))
  | _ => none

/-- One block of `yami_dec_close` (libyami.cpp:448-481) after its entry: one
pass of `while (s->decode_status != DECODE_THREAD_EXIT)` (453-460), or the
release of the engine and of the queue (463-477). -/
def yami_dec_close (s : DecSession) : Option DecSession :=
  match s.caller with
  | .closeWait =>
    if s.status ≠ .EXIT then some { s with status := .GOT_EOS }
    else some { s with caller := .closeRelease }
  | .closeRelease =>
    let t := if s.engine then { s with engine := false }.log .release else s
    some (Session.log { t with in_queue := [], queue_deleted := true, caller := .closed }
      (Event.deleteQueue s.in_queue.length))
  | _ => none

/-- One step of a decode session.  A call enters at `if (!s || !s->decoder)
return -1;` (268); a call or close is entered only between calls. -/
def dec_step (s : DecSession) : Action AVPacket → Option DecSession
  | .call pkt =>
    match s.caller with
    | .idle =>
      if s.engine then some { s with caller := .enqueue pkt }
      else some (s.log (.ret (-1) none))
    | _ => none
  | .close =>
    match s.caller with
    | .idle => some { s with caller := .closeWait }
    | _ => none
  | .caller out =>
    match s.caller with
    | .closeWait | .closeRelease => yami_dec_close s
    | _ => yami_dec_frame s out
  | .worker w r => decodeThread s w r

/-! ## Encode path -/

/-- An encode session; the argument of a call is the frame pointer, `none`
for `NULL`. -/
abbrev EncSession := Session (Option AVFrame) AVFrame

/-- The session after a successful `yami_enc_init` (libyami.cpp:909-919). -/
def enc_open : EncSession :=
  { status := .NOT_INIT, in_queue := [], engine := true, format_info := false,
    queue_deleted := false, caller := .idle, workers := [], trace := [] }

/-- The status `switch` of `yami_enc_frame` (libyami.cpp:963-982): the new
status and whether `pthread_create` is called. -/
def enc_status_switch (st : ThreadStatus) (frame : Option AVFrame) (queue_empty : Bool) :
    ThreadStatus × Bool :=
  match st with
  | .NOT_INIT | .EXIT =>
    if frame.isSome then (.RUNING, true) else (st, false)
  | .RUNING =>
    if !frame.isSome then (.GOT_EOS, false) else (st, false)
  | .GOT_EOS =>
    if queue_empty then (.NOT_INIT, false) else (st, false)

/-- One block of `encodeThread` (libyami.cpp:645-778) for worker `w`; `r` is
the result of `encoder->encode` when the block calls it.  Both the copy mode
and the zero-copy mode repeat the call while it returns `ENCODE_IS_BUSY`
(734-736, 756-758).  `none` as for `decodeThread`. -/
def encodeThread (s : EncSession) (w : Nat) (r : SubmitResult) : Option EncSession :=
  match s.workers[w]? with
  | none => none
  | some .loopTop =>
    if s.queue_deleted then none else
    match s.in_queue with
    | [] =>
      if s.status = .GOT_EOS then some ((s.setWorker w .setExit).log (.leave w))
      else some ((s.setWorker w .condWait).log (.wait w))
    | b :: _ => some (s.setWorker w (.submit b))
  | some .condWait =>
    if s.queue_deleted then none else
    match s.in_queue with
    | [] => some (s.setWorker w .loopTop)
    | b :: _ => some (s.setWorker w (.submit b))
  | some (.submit b) =>
    if !s.engine then none else
    if r = .Busy then some ((s.setWorker w (.resubmit b)).log (.submit w b false))
    else some ((s.setWorker w (.popFront b)).log (.submit w b false))
  | some (.resubmit b) =>
    if !s.engine then none else
    if r = .Busy then some ((s.setWorker w (.resubmit b)).log (.submit w b true))
    else some ((s.setWorker w (.popFront b)).log (.submit w b true))
  | some (.popFront b) =>
    if s.queue_deleted then none else
    match s.in_queue with
    | [] => none
    | x :: rest =>
      some ({ s with in_queue := rest }.setWorker w .loopTop |>.log (.pop w b x))
  | some .setExit =>
    some ({ s with status := .EXIT }.setWorker w .returned |>.log (.exit w))
  | some .returned => none

/-- One block of `yami_enc_frame` (libyami.cpp:922-1000) after its entry: the
test `if (frame)` and one pass of the admission loop (931-957), the status
switch (962-983), or one pass of the output loop (985-989).  `out` is the
result of `encoder->getOutput`.  A failure of `ff_alloc_packet2` is not
modelled. -/
def yami_enc_frame (s : EncSession) (out : FetchResult) : Option EncSession :=
  match s.caller with
  | .enqueue none => some { s with caller := .statusUpdate none }
  | .enqueue (some frame) =>
    if s.status.toNat < ThreadStatus.GOT_EOS.toNat then
      if s.in_queue.length < QUEUE_MIN_SIZE then
        some ({ s with in_queue := s.in_queue ++ [frame],
                       caller := .statusUpdate (some frame) }.log (.push frame))
      else some s
    else some { s with caller := .statusUpdate (some frame) }
  | .statusUpdate frame =>
    let u := enc_status_switch s.status frame s.in_queue.isEmpty
    if u.2 then
      some ({ s with status := u.1, caller := .getOutput frame,
                     workers := s.workers ++ [WorkerPc.loopTop] }.log (.spawn s.workers.length))
    else some { s with status := u.1, caller := .getOutput frame }
  | .getOutput frame =>
    if out = .Ready then
      some (({ s with caller := .idle }.log (.fetch out)).log (.ret 0 (some true)))
    else if !frame.isSome && 0 < s.in_queue.length then some (s.log (.fetch out))
    else some (({ s with caller := .idle }.log (.fetch out)).log (.ret 0 none))
  | _ => none

/-- One block of `yami_enc_close` (libyami.cpp:1002-1038) after its entry: one
pass of `while (s->encode_status == ENCODE_THREAD_RUNING)` (1008-1015), or the
release of the engine and of the queue (1018-1030). -/
def yami_enc_close (s : EncSession) : Option EncSession :=
  match s.caller with
  | .closeWait =>
    if s.status = .RUNING then some { s with status := .GOT_EOS }
    else some { s with caller := .closeRelease }
  | .closeRelease =>
    let t := if s.engine then { s with engine := false }.log .release else s
    some (Session.log { t with in_queue := [], queue_deleted := true, caller := .closed }
      (Event.deleteQueue s.in_queue.length))
  | _ => none

/-- One step of an encode session.  A call enters at `if (!s->encoder)
return -1;` (929); a call or close is entered only between calls. -/
def enc_step (s : EncSession) : Action (Option AVFrame) → Option EncSession
  | .call frame =>
    match s.caller with
    | .idle =>
      if s.engine then some { s with caller := .enqueue frame }
      else some (s.log (.ret (-1) none))
    | _ => none
  | .close =>
    match s.caller with
    | .idle => some { s with caller := .closeWait }
    | _ => none
  | .caller out =>
    match s.caller with
    | .closeWait | .closeRelease => yami_enc_close s
    | _ => yami_enc_frame s out
  | .worker w r => encodeThread s w r

/-! ## Concrete inputs -/

/-- A packet without payload: the end-of-stream marker of the decode path. -/
def end_marker : AVPacket := { data := false, size := 0, pts := 0 }

/-- One end-marker call on a decoder whose `format_info` is null, run to its
return: entry, admission, status switch, output loop body, loop condition. -/
def dec_end_call : List (Action AVPacket) :=
  [.call end_marker, .caller .NotReady, .caller .NotReady, .caller .NotReady,
   .caller .NotReady]

/-- Eight end-marker calls in a row. -/
def dec_fill : List (Action AVPacket) :=
  dec_end_call ++ dec_end_call ++ dec_end_call ++ dec_end_call ++
  dec_end_call ++ dec_end_call ++ dec_end_call ++ dec_end_call

/-- The decode session after `dec_fill`: eight queued units, no worker. -/
def dec_filled : DecSession :=
  { dec_open with
    in_queue := List.replicate 8 (in_buffer end_marker)
    trace := (List.replicate 8
      [Event.push (in_buffer end_marker), Event.ret 0 none]).flatten }

/-- The frame with time stamp `n`, in a software pixel format. -/
def frame (n : Nat) : AVFrame := { pts := n, yami_format := false }

/-- One call of `yami_enc_frame` with frame `n`, run to its return while
`getOutput` has nothing: entry, admission, status switch, output loop. -/
def enc_call (n : Nat) : List (Action (Option AVFrame)) :=
  [.call (some (frame n)), .caller .NotReady, .caller .NotReady, .caller .NotReady]

/-- Eight frames submitted while the worker is never scheduled. -/
def enc_fill : List (Action (Option AVFrame)) :=
  enc_call 1 ++ enc_call 2 ++ enc_call 3 ++ enc_call 4 ++
  enc_call 5 ++ enc_call 6 ++ enc_call 7 ++ enc_call 8

/-- The history of `enc_fill`. -/
def enc_fill_trace : List (Event AVFrame) :=
  [.push (frame 1), .spawn 0, .fetch .NotReady, .ret 0 none] ++
  ([2, 3, 4, 5, 6, 7, 8].map fun n =>
    [Event.push (frame n), Event.fetch .NotReady, Event.ret 0 none]).flatten

/-- The encode session after `enc_fill`: eight queued frames, one worker that
has not run yet. -/
def enc_filled : EncSession :=
  { enc_open with
    status := .RUNING
    in_queue := [1, 2, 3, 4, 5, 6, 7, 8].map frame
    workers := [.loopTop]
    trace := enc_fill_trace }

/-- The units of the first engine call of each worker iteration, in the order
of the calls (repeated calls on a unit are left out). -/
def firstSubmissions {α : Type} (tr : List (Event α)) : List α :=
  tr.filterMap fun e =>
    match e with
    | .submit _ b false => some b
    | _ => none

/-- The units the caller appended to the queue, in order. -/
def pushes {α : Type} (tr : List (Event α)) : List α :=
  tr.filterMap fun e =>
    match e with
    | .push b => some b
    | _ => none

/-- Every `pop_front()`: the worker, the unit it had submitted, the unit removed. -/
def pops {α : Type} (tr : List (Event α)) : List (Nat × α × α) :=
  tr.filterMap fun e =>
    match e with
    | .pop w b x => some (w, b, x)
    | _ => none

/-- The packet with payload and time stamp `n`. -/
def packet (n : Nat) : AVPacket := { data := true, size := 10, pts := n }

/-- One call of `yami_dec_frame` with packet `n` on a decoder that knows its
format, run to its return: entry, admission, status switch, output. -/
def dec_call (n : Nat) : List (Action AVPacket) :=
  [.call (packet n), .caller .NotReady, .caller .NotReady, .caller .NotReady]

/-- One end-marker call on a decoder that knows its format, run to its return. -/
def dec_end_call_known : List (Action AVPacket) :=
  [.call end_marker, .caller .NotReady, .caller .NotReady, .caller .NotReady]

/-- Decode: packet 1 is queued and the worker started; the worker decodes it
(the engine reports the format change, then accepts) and removes it; the call
returns.  An end marker is queued (status `GOT_EOS`), the worker consumes it. -/
def dec_draining : List (Action AVPacket) :=
  [.call (packet 1), .caller .NotReady, .caller .NotReady,
   .worker 0 .Accepted, .worker 0 .FormatChanged, .worker 0 .Accepted, .worker 0 .Accepted,
   .caller .NotReady] ++
  dec_end_call_known ++
  [.worker 0 .Accepted, .worker 0 .Accepted, .worker 0 .Accepted]

/-- Decode: after `dec_draining` a second end-marker call finds the queue
empty and resets the status; only then does the worker test the queue, and
goes to wait. -/
def dec_drained : List (Action AVPacket) :=
  dec_draining ++ dec_end_call_known ++ [.worker 0 .Accepted]

/-- Decode: after `dec_drained` the next stream segment starts with packet 2. -/
def dec_restart : List (Action AVPacket) :=
  dec_drained ++ dec_call 2

/-- Decode: after `dec_restart` the waiting worker (woken by the signal of the
push) and the new worker both take the front unit and decode it; packet 3 is
queued; both workers run `pop_front()`. -/
def dec_double : List (Action AVPacket) :=
  dec_restart ++
  [.worker 0 .Accepted, .worker 1 .Accepted, .worker 0 .Accepted, .worker 1 .Accepted] ++
  dec_call 3 ++ [.worker 0 .Accepted, .worker 1 .Accepted]

/-- Decode: after `dec_draining` the worker finds the queue empty in status
`GOT_EOS` and leaves its loop. -/
def dec_leaving : List (Action AVPacket) :=
  dec_draining ++ [.worker 0 .Accepted]

/-- Decode: after `dec_leaving` the worker stores `DECODE_THREAD_EXIT`. -/
def dec_exited : List (Action AVPacket) :=
  dec_leaving ++ [.worker 0 .Accepted]

/-- Decode: after `dec_exited` packet 2 is submitted. -/
def dec_after_exit : List (Action AVPacket) :=
  dec_exited ++ dec_call 2

/-- One call of `yami_enc_frame` with a null frame, run to its return. -/
def enc_null_call : List (Action (Option AVFrame)) :=
  [.call none, .caller .NotReady, .caller .NotReady, .caller .NotReady]

/-- Encode: frame 1 is queued and the worker started; the worker encodes and
removes it, finds the queue empty and waits; two null-frame calls follow (the
first sets `GOT_EOS`, the second finds the queue empty and resets the status;
neither signals the condition variable). -/
def enc_drained : List (Action (Option AVFrame)) :=
  enc_call 1 ++
  [.worker 0 .Accepted, .worker 0 .Accepted, .worker 0 .Accepted, .worker 0 .Accepted] ++
  enc_null_call ++ enc_null_call

/-- Encode: after `enc_drained` the next stream segment starts with frame 2. -/
def enc_restart : List (Action (Option AVFrame)) :=
  enc_drained ++ enc_call 2

/-- Encode: after `enc_restart` the waiting worker (woken by the signal of the
push) and the new worker both take the front frame and encode it; frame 3 is
queued; both workers run `pop_front()`. -/
def enc_double : List (Action (Option AVFrame)) :=
  enc_restart ++
  [.worker 0 .Accepted, .worker 1 .Accepted, .worker 0 .Accepted, .worker 1 .Accepted] ++
  enc_call 3 ++ [.worker 0 .Accepted, .worker 1 .Accepted]

/-- Encode: frame 1 is queued, encoded and removed; a null-frame call sets
`GOT_EOS`; the worker finds the queue empty and leaves its loop. -/
def enc_leaving : List (Action (Option AVFrame)) :=
  enc_call 1 ++
  [.worker 0 .Accepted, .worker 0 .Accepted, .worker 0 .Accepted] ++
  enc_null_call ++ [.worker 0 .Accepted]

/-- Encode: after `enc_leaving` the worker stores `ENCODE_THREAD_EXIT`. -/
def enc_exited : List (Action (Option AVFrame)) :=
  enc_leaving ++ [.worker 0 .Accepted]

/-- Encode: after `enc_exited` frame 2 is submitted. -/
def enc_after_exit : List (Action (Option AVFrame)) :=
  enc_exited ++ enc_call 2

/-- The status graph in the words of the specification (section 4.2):
NotInitialized -> Running, Running -> DrainingEndOfStream,
DrainingEndOfStream -> NotInitialized, Running -> Exited,
DrainingEndOfStream -> Exited, Exited -> Running. -/
def status_edge : ThreadStatus → ThreadStatus → Bool
  | .NOT_INIT, .RUNING => true
  | .RUNING, .GOT_EOS => true
  | .GOT_EOS, .NOT_INIT => true
  | .RUNING, .EXIT => true
  | .GOT_EOS, .EXIT => true
  | .EXIT, .RUNING => true
  | _, _ => false

/-- The caller-side status update in the words of the specification
(section 4.2), as a function of the status, whether the submitted unit is an
end-of-stream marker, and whether the queue is empty: the new status and
whether a worker is started. -/
def status_update_spec (st : ThreadStatus) (is_end : Bool) (queue_empty : Bool) :
    ThreadStatus × Bool :=
  match st, is_end with
  | .NOT_INIT, false => (.RUNING, true)
  | .EXIT, false => (.RUNING, true)
  | .NOT_INIT, true => (.NOT_INIT, false)
  | .EXIT, true => (.EXIT, false)
  | .RUNING, true => (.GOT_EOS, false)
  | .RUNING, false => (.RUNING, false)
  | .GOT_EOS, _ => (if queue_empty then .NOT_INIT else .GOT_EOS, false)

/-- A decode packet is an end-of-stream marker when it has no payload
(`!avpkt->data || !avpkt->size`). -/
def AVPacket.is_end (pkt : AVPacket) : Bool := !pkt.data || pkt.size == 0

/-- The state a schedule leads to (the start state when it is not enabled). -/
def after {σ A : Type} (step : σ → A → Option σ) (s : σ) (acts : List A) : σ :=
  (run step s acts).getD s

/-- Encode: frame 1 is queued and the worker started (it has not run yet);
then `yami_enc_close` runs to its return: entry, two passes of the loop
condition, the release block. -/
def enc_close_early : List (Action (Option AVFrame)) :=
  enc_call 1 ++ [.close, .caller .NotReady, .caller .NotReady, .caller .NotReady]

/-- The decode session in the wait loop of `yami_dec_close` after the first
pass: no worker, status `GOT_EOS`. -/
def dec_closing : DecSession :=
  { dec_open with status := .GOT_EOS, caller := .closeWait }

/-- Decode: packet 1 is queued, the worker started, and the worker has taken
the unit from the front of the queue. -/
def dec_holding : List (Action AVPacket) :=
  [.call (packet 1), .caller .NotReady, .caller .NotReady, .worker 0 .Accepted]

/-- Decode: after `dec_holding` the engine accepts the unit; the worker is at
`pop_front()`. -/
def dec_decoded : List (Action AVPacket) :=
  dec_holding ++ [.worker 0 .Accepted]

/-- The unit a worker has submitted to the engine and not yet popped. -/
def WorkerPc.pending {α : Type} : WorkerPc α → List α
  | .resubmit b => [b]
  | .popFront b => [b]
  | _ => []

/-- The unit a worker holds in `in_buffer` / `frame`. -/
def WorkerPc.held {α : Type} : WorkerPc α → Option α
  | .submit b => some b
  | .resubmit b => some b
  | .popFront b => some b
  | _ => none

/-- The order invariant of a session with a single worker, on its parts: the
pushes `ps`, the first submissions `fs`, the pops `pp`, whether the queue is
deleted, the queue `q` and the worker `pc`.  The pushes are the removed units
followed by `rest`, which is the queue while it exists; a held unit is the
front of `rest`; the first submissions are the removed units and the pending
one; every pop removed the unit the worker held. -/
def OrderInv {α : Type} (ps fs : List α) (pp : List (Nat × α × α)) (deleted : Bool)
    (q : List α) (pc : Option (WorkerPc α)) : Prop :=
  ∃ rest, ps = pp.map (fun e => e.2.2) ++ rest ∧
    (deleted = false → q = rest) ∧
    (∀ b, pc.bind WorkerPc.held = some b → rest.head? = some b) ∧
    fs = pp.map (fun e => e.2.2) ++ (pc.map WorkerPc.pending).getD [] ∧
    ∀ e ∈ pp, e.2.1 = e.2.2

/-- The order invariant of a session whose only worker has index 0. -/
def SingleWorkerOrder {ι α : Type} (s : Session ι α) : Prop :=
  OrderInv (pushes s.trace) (firstSubmissions s.trace) (pops s.trace) s.queue_deleted
    s.in_queue s.workers[0]?

/-- One worker iteration on the decode path after the unit was taken: the
engine call, the second call when the first result is FormatChanged, and the
pop.  `r1` is the first result, `r2` the second one. -/
def dec_iteration (w : Nat) (r1 r2 : SubmitResult) : List (Action AVPacket) :=
  if r1 = .FormatChanged then
    [.worker w r1, .worker w r2, .worker w .Accepted]
  else [.worker w r1, .worker w .Accepted]

/-- One worker iteration on the encode path after the frame was taken: `k`
calls that return `ENCODE_IS_BUSY`, the call that returns `r`, and the pop. -/
def enc_iteration (w k : Nat) (r : SubmitResult) : List (Action (Option AVFrame)) :=
  List.replicate k (.worker w .Busy) ++ [.worker w r, .worker w .Accepted]

/-- Encode: frame 1 is queued, the worker started, and the worker has taken
the frame from the front of the queue. -/
def enc_holding : List (Action (Option AVFrame)) :=
  enc_call 1 ++ [.worker 0 .Accepted]

/-! ## Release of output frames -/

/-- What `yami_recycle_frame` reads and writes: the private context behind
`avctx->priv_data`, the calls of `decoder->renderDone` and the calls of
`av_free` on an output handle, both in the order they were made. -/
structure ReleaseState where
  /-- The decode session (`none`: `avctx->priv_data` is null). -/
  session : Option DecSession
  /-- The handles passed to `decoder->renderDone`. -/
  rendered : List Nat
  /-- The handles passed to `av_free`. -/
  freed : List Nat
  deriving DecidableEq, Repr

/-- The release callback `yami_recycle_frame` (libyami.cpp:248-262); `data` is
the output handle, `none` for a null pointer.  The session itself is only
locked, not written. -/
def yami_recycle_frame (st : ReleaseState) (data : Option Nat) : ReleaseState :=
  match st.session, data with
  | some s, some yami_frame =>
    if !s.engine then st
    else { st with rendered := st.rendered ++ [yami_frame],
                   freed := st.freed ++ [yami_frame] }
  | _, _ => st

/-- An open decode session on which nothing was released yet. -/
def release_open : ReleaseState :=
  { session := some dec_open, rendered := [], freed := [] }

/-- Decode: a session that is opened, used for packet 1 and an end marker,
whose worker has exited, and that is then closed: entry of
`yami_dec_close`, the loop condition, the release block. -/
def dec_closed : List (Action AVPacket) :=
  dec_exited ++ [.close, .caller .NotReady, .caller .NotReady]

/-! ## Output of a decode call -/

/-- The values of `avctx->pix_fmt` that the adapter tells apart; `OTHER` is any
other format. -/
inductive AVPixelFormat
  | NONE
  | YAMI
  | NV12
  | YUV420P
  | OTHER
  deriving DecidableEq, Repr

/-- The release callbacks a reference-counted buffer can carry. -/
inductive FreeCallback
  | yami_recycle_frame
  | av_buffer_default_free
  deriving DecidableEq, Repr

/-- The fields of an `AVBufferRef` made by `av_buffer_create`. -/
structure AVBufferRef where
  /-- The handle the buffer wraps. -/
  data : Nat
  /-- The callback run when the last reference is dropped. -/
  free : FreeCallback
  deriving DecidableEq, Repr

/-- The buffer `frame->buf[0]` that `yami_dec_frame` creates for the output
handle `yami_frame` after a successful `getOutput`: the zero-copy branch
(libyami.cpp:383-385) and the copy branch (431-433). -/
def output_buf (pix_fmt : AVPixelFormat) (yami_frame : Nat) : AVBufferRef :=
  if pix_fmt = .YAMI then { data := yami_frame, free := .yami_recycle_frame }
  else { data := yami_frame, free := .yami_recycle_frame }

/-- The value of `*got_frame` when a call returns: what the call stored, and
the value it had on entry when the call stored nothing. -/
def got_frame_after (entry : Bool) (stored : Option Bool) : Bool :=
  stored.getD entry

/-- The results of the `getOutput` calls of a history, in order. -/
def fetches {α : Type} (tr : List (Event α)) : List FetchResult :=
  tr.filterMap fun e =>
    match e with
    | .fetch r => some r
    | _ => none

/-- What the calls of a history returned, in order: the return value and what
was stored in `*got_frame` / `*got_packet`. -/
def returns {α : Type} (tr : List (Event α)) : List (Int × Option Bool) :=
  tr.filterMap fun e =>
    match e with
    | .ret code got => some (code, got)
    | _ => none

/-- The decode session after `dec_fill`, inside a ninth end-marker call, at the
head of its admission loop. -/
def dec_ninth : DecSession :=
  { dec_filled with caller := .enqueue end_marker }

/-- Decode: after `dec_holding` the engine reports the format change; the
caller is still at the output loop of its call with packet 1. -/
def dec_format_known : List (Action AVPacket) :=
  dec_holding ++ [.worker 0 .FormatChanged]

/-- Decode: packet 1 is queued, decoded (with the format change) and removed,
and its call has returned. -/
def dec_first_done : List (Action AVPacket) :=
  dec_format_known ++ [.worker 0 .Accepted, .worker 0 .Accepted, .caller .NotReady]

/-- Decode: an end-marker call on a fresh session, up to its output loop:
entry, admission, status switch. -/
def dec_end_call_at_pump : List (Action AVPacket) :=
  [.call end_marker, .caller .NotReady, .caller .NotReady]

/-! ## Session open -/

/-- What the collaborators of session open answer. -/
structure InitEnv where
  /-- Whether `avctx->pix_fmt == AV_PIX_FMT_NONE` on entry. -/
  pix_fmt_none : Bool
  /-- The value `ff_get_format` returns (negative: failure). -/
  get_format : Int
  /-- Whether `createVADisplay()` returns a display. -/
  display : Bool
  /-- Whether `createVideoDecoder` / `createVideoEncoder` returns an engine. -/
  engine : Bool
  /-- Whether `start` returns `DECODE_SUCCESS` / `ENCODE_SUCCESS`. -/
  start : Bool
  /-- Whether the `malloc` of `createOutputBuffer` succeeds (encode). -/
  output_buffer : Bool
  /-- Whether `assert` is compiled out (`NDEBUG`). -/
  ndebug : Bool
  deriving DecidableEq, Repr

/-- How session open ends: a return value and the private context it leaves,
or a failed `assert` (the process is aborted). -/
inductive InitOutcome (σ : Type)
  | returned (code : Int) (s : σ)
  | aborted (s : σ)
  deriving DecidableEq, Repr

/-- The return value of session open, when it returns. -/
def InitOutcome.code {σ : Type} : InitOutcome σ → Option Int
  | .returned code _ => some code
  | .aborted _ => none

/-- The private context session open leaves behind. -/
def InitOutcome.session {σ : Type} : InitOutcome σ → σ
  | .returned _ s => s
  | .aborted s => s

/-- The zero-filled private context a decode session starts from: status 0
(`DECODE_THREAD_NOT_INIT`), null pointers, no thread. -/
def dec_zero : DecSession :=
  { status := .NOT_INIT, in_queue := [], engine := false, format_info := false,
    queue_deleted := false, caller := .idle, workers := [], trace := [] }

/-- The zero-filled private context an encode session starts from. -/
def enc_zero : EncSession :=
  { status := .NOT_INIT, in_queue := [], engine := false, format_info := false,
    queue_deleted := false, caller := .idle, workers := [], trace := [] }

/-- The function `yami_dec_init` (libyami.cpp:120-185). -/
def yami_dec_init (env : InitEnv) : InitOutcome DecSession :=
  if env.pix_fmt_none && decide (env.get_format < 0) then .returned env.get_format dec_zero
  else if !env.display then .returned (-1) dec_zero
  else if !env.engine then .returned (-1) dec_zero
  else if !env.start then .returned (-1) { dec_zero with engine := true }
  else .returned 0 dec_open

/-- The function `yami_enc_init` (libyami.cpp:800-920).  The result of
`createVADisplay()` is passed on unchecked (830-832); the result of `start` is
only asserted (896-897). -/
def yami_enc_init (env : InitEnv) : InitOutcome EncSession :=
  if env.pix_fmt_none && decide (env.get_format < 0) then .returned env.get_format enc_zero
  else if !env.engine then .returned (-1) enc_zero
  else if !env.start && !env.ndebug then .aborted { enc_zero with engine := true }
  else if !env.output_buffer then .returned (-1) { enc_zero with engine := true }
  else .returned 0 enc_open

/-- Session open where everything works. -/
def env_ok : InitEnv :=
  { pix_fmt_none := false, get_format := 0, display := true, engine := true,
    start := true, output_buffer := true, ndebug := true }

/-! ## Plane layout of the encoder's staging buffer -/

/-- The four-character codes `getPlaneResolution` tells apart; `OTHER` is any
other code. -/
inductive Fourcc
  | NV12
  | I420
  | YV12
  | YUY2
  | UYVY
  | RGBX
  | RGBA
  | BGRX
  | BGRA
  | OTHER
  deriving DecidableEq, Repr

/-- A value stored in a `uint32_t`. -/
def u32 (n : Nat) : Nat := n % 2 ^ 32

/-- What `getPlaneResolution` writes on success: the entries of `byteWidth`
and `byteHeight` it assigns, and `planes`. -/
structure PlaneResolution where
  /-- The assigned entries of `byteWidth`, from index 0. -/
  byteWidth : List Nat
  /-- The assigned entries of `byteHeight`, from index 0. -/
  byteHeight : List Nat
  /-- The number of planes. -/
  planes : Nat
  deriving DecidableEq, Repr

/-- The function `getPlaneResolution` (libyami.cpp:575-619); `none` is the
`default` case (`return false`).  The source computes in `int`; the
definition gives its values as long as no `int` operation overflows, that is
for pixel sizes below `2 ^ 31 - 1` (and `w * 2`, `w * 4` below `2 ^ 31` for
the packed formats). -/
def getPlaneResolution (fourcc : Fourcc) (pixelWidth pixelHeight : Nat) :
    Option PlaneResolution :=
  let w := pixelWidth
  let h := pixelHeight
  match fourcc with
  | .NV12 =>
    some { byteWidth := [u32 w, u32 (w + w % 2)],
           byteHeight := [u32 h, u32 ((h + 1) / 2)], planes := 2 }
  | .I420 | .YV12 =>
    some { byteWidth := [u32 w, u32 ((w + 1) / 2), u32 ((w + 1) / 2)],
           byteHeight := [u32 h, u32 ((h + 1) / 2), u32 ((h + 1) / 2)], planes := 3 }
  | .YUY2 | .UYVY =>
    some { byteWidth := [u32 (w * 2)], byteHeight := [u32 h], planes := 1 }
  | .RGBX | .RGBA | .BGRX | .BGRA =>
    some { byteWidth := [u32 (w * 4)], byteHeight := [u32 h], planes := 1 }
  | .OTHER => none

/-- The fields of `VideoFrameRawData` that `fillFrameRawData` writes; `pitch`
and `offset` have three entries. -/
structure VideoFrameRawData where
  /-- The field `fourcc`. -/
  fourcc : Fourcc
  /-- The field `width`. -/
  width : Nat
  /-- The field `height`. -/
  height : Nat
  /-- The field `handle`: the address of the pixel data. -/
  handle : Nat
  /-- The array `pitch`. -/
  pitch : List Nat
  /-- The array `offset`. -/
  offset : List Nat
  deriving DecidableEq, Repr

/-- The loop of `fillFrameRawData` (libyami.cpp:636-641) with `remaining`
passes to go, at index `i`: the frame, and the final value of the local
variable `offset`. -/
def fillPlanes (w h : List Nat) :
    (remaining : Nat) → (i : Nat) → (offset : Nat) → VideoFrameRawData →
      VideoFrameRawData × Nat
  | 0, _, offset, frame => (frame, offset)
  | k + 1, i, offset, frame =>
    fillPlanes w h k (i + 1) (u32 (offset + u32 (w.getD i 0 * h.getD i 0)))
      { frame with pitch := frame.pitch.set i (w.getD i 0),
                   offset := frame.offset.set i offset }

/-- The function `fillFrameRawData` (libyami.cpp:621-643) together with the
final value of its local variable `offset`, the number of bytes the declared
planes take; `none` when `getPlaneResolution` fails. -/
def fillFrameRawData (fourcc : Fourcc) (width height : Nat) (data : Nat) :
    Option (VideoFrameRawData × Nat) :=
  match getPlaneResolution fourcc width height with
  | none => none
  | some res =>
    some (fillPlanes res.byteWidth res.byteHeight res.planes 0 0
      { fourcc := fourcc, width := width, height := height, handle := data,
        pitch := [0, 0, 0], offset := [0, 0, 0] })

/-- The size `m_frameSize` of the staging buffer `m_buffer` that
`yami_enc_init` allocates (libyami.cpp:906-907).  The source computes the
product in `int`; the definition gives its value as long as
`width * height * 3` is below `2 ^ 31`. -/
def m_frameSize (width height : Nat) : Nat :=
  u32 (width * height * 3 / 2)

/-- Where `encodeThread` copies a frame in its copy mode (libyami.cpp:709-724):
the start of each destination plane as an offset into `m_buffer`, and the
destination line sizes passed to `av_image_copy`, which are the source
frame's `linesize`. -/
structure CopyLayout where
  /-- The pointers `dst_data[0..2]`, relative to `m_buffer`. -/
  dst_data : List Nat
  /-- The array `in_buffer->pitch` passed as destination line sizes. -/
  dst_linesize : List Nat
  deriving DecidableEq, Repr

/-- The copy layout of `encodeThread` for a frame with line sizes `l0`, `l1`,
`l2` (libyami.cpp:709-716). -/
def copy_layout (width height l0 l1 l2 : Nat) : CopyLayout :=
  { dst_data := [0, width * height, width * height + width * height / 4],
    dst_linesize := [l0, l1, l2] }

/-- The four-character code `encodeThread` declares for the staging buffer
(libyami.cpp:726-731); `none`: `fillFrameRawData` is not called. -/
def staging_fourcc (pix_fmt : AVPixelFormat) : Option Fourcc :=
  if pix_fmt = .YUV420P then some .I420
  else if pix_fmt = .NV12 then some .NV12
  else none

/-! ## Schedules with a late worker -/

/-- Every engine call of a history, in order: the worker, the unit, and whether
the call repeats a call on the unit the worker holds. -/
def submissions {α : Type} (tr : List (Event α)) : List (Nat × α × Bool) :=
  tr.filterMap fun e =>
    match e with
    | .submit w b again => some (w, b, again)
    | _ => none

/-- The units freed by the workers (`av_free(in_buffer)` after `pop_front()`
frees the unit the worker holds), in order. -/
def released {α : Type} (tr : List (Event α)) : List α :=
  (pops tr).map fun e => e.2.1

/-- The units `pop_front()` took out of the queue, in order. -/
def removed {α : Type} (tr : List (Event α)) : List α :=
  (pops tr).map fun e => e.2.2

/-- Decode: after `dec_leaving` (worker 0 has left its loop and not yet stored
`DECODE_THREAD_EXIT`) two end-marker calls run to their return: the first
finds the queue empty in status `GOT_EOS` and resets the status, the second
queues its empty unit. -/
def dec_late_push : List (Action AVPacket) :=
  dec_leaving ++ dec_end_call_known ++ dec_end_call_known

/-- Decode: after `dec_late_push` worker 0 stores `DECODE_THREAD_EXIT`. -/
def dec_late_exit : List (Action AVPacket) :=
  dec_late_push ++ [.worker 0 .Accepted]

/-- Encode: after `enc_leaving` (worker 0 has left its loop and not yet stored
`ENCODE_THREAD_EXIT`) a null-frame call resets the status and a call with
frame 2 queues it and starts worker 1. -/
def enc_late_push : List (Action (Option AVFrame)) :=
  enc_leaving ++ enc_null_call ++ enc_call 2

/-- Encode: after `enc_late_push` worker 0 stores `ENCODE_THREAD_EXIT`. -/
def enc_late_exit : List (Action (Option AVFrame)) :=
  enc_late_push ++ [.worker 0 .Accepted]

/-- Decode: as `dec_double` up to the engine calls of the two workers on
packet 2, with the engine reporting a format change to both. -/
def dec_double_changed : List (Action AVPacket) :=
  dec_restart ++
  [.worker 0 .Accepted, .worker 1 .Accepted, .worker 0 .FormatChanged, .worker 0 .Accepted,
   .worker 1 .FormatChanged, .worker 1 .Accepted]

/-- The state after `n` invocations of `yami_recycle_frame` with the same
argument. -/
def recycle_times (n : Nat) (st : ReleaseState) (data : Option Nat) : ReleaseState :=
  match n with
  | 0 => st
  | k + 1 => yami_recycle_frame (recycle_times k st data) data

/-! ## Theorems -/

/-! ### Schedules and histories -/

/-- An invariant kept by every enabled step holds after every schedule. -/
theorem run_invariant {σ A : Type} (step : σ → A → Option σ) (I : σ → Prop)
    (hstep : ∀ s a t, I s → step s a = some t → I t) :
    ∀ (acts : List A) (s t : σ), I s → run step s acts = some t → I t := by
  intro acts
  induction acts with
  | nil =>
    intro s t hs h
    simp only [run, Option.some.injEq] at h
    exact h ▸ hs
  | cons a as ih =>
    intro s t hs h
    simp only [run] at h
    split at h
    · cases h
    · next u hu => exact ih u t (hstep s a u hs hu) h

/-- Running a concatenation is running its parts in turn. -/
theorem run_append {σ A : Type} (step : σ → A → Option σ) (as bs : List A) :
    ∀ s : σ, run step s (as ++ bs) = (run step s as).bind fun u => run step u bs := by
  induction as with
  | nil => intro s; simp [run]
  | cons a as ih =>
    intro s
    simp only [List.cons_append, run]
    split
    · simp
    · next u hu => exact ih u

/-- The last step of a schedule. -/
theorem run_snoc {σ A : Type} (step : σ → A → Option σ) (as : List A) (a : A) (s t : σ)
    (h : run step s (as ++ [a]) = some t) :
    ∃ u, run step s as = some u ∧ step u a = some t := by
  rw [run_append] at h
  cases hu : run step s as with
  | none => simp [hu] at h
  | some u =>
    refine ⟨u, rfl, ?_⟩
    simp only [hu, Option.some_bind, run] at h
    split at h
    · cases h
    · next v hv => simp only [Option.some.injEq] at h; rw [← h]; exact hv

/-- If `P` holds after a schedule and not before it, the schedule has a last
step that made `P` true; when only steps of kind `mine` can make it true, and
they make it false again, that step is of kind `mine` and none follows it. -/
theorem run_last_entry {σ A : Type} (step : σ → A → Option σ) (P : σ → Prop) (mine : A → Prop)
    (hframe : ∀ s a t, step s a = some t → ¬ mine a → P t → P s)
    (hleave : ∀ s a t, step s a = some t → mine a → P s → ¬ P t)
    (acts : List A) (s0 s : σ) (hrun : run step s0 acts = some s) (hP : P s) (h0 : ¬ P s0) :
    ∃ pre a post sm sm', acts = pre ++ a :: post ∧ mine a ∧ run step s0 pre = some sm ∧
      step sm a = some sm' ∧ ¬ P sm ∧ P sm' ∧ ∀ b ∈ post, ¬ mine b := by
  induction acts using List.reverseRecOn generalizing s with
  | nil =>
    simp only [run, Option.some.injEq] at hrun
    exact absurd (hrun ▸ hP) h0
  | append_singleton l a ih =>
    obtain ⟨u, hu, hstep⟩ := run_snoc step l a s0 s hrun
    by_cases hm : mine a
    · have hPu : ¬ P u := fun hPu => hleave u a s hstep hm hPu hP
      exact ⟨l, a, [], u, s, rfl, hm, hu, hstep, hPu, hP, by simp⟩
    · have hPu : P u := hframe u a s hstep hm hP
      obtain ⟨pre, a0, post, sm, sm', hsplit, hmine, hpre, hs, hn, hy, hpost⟩ := ih u hu hPu
      refine ⟨pre, a0, post ++ [a], sm, sm', ?_, hmine, hpre, hs, hn, hy, ?_⟩
      · rw [hsplit]; simp
      · intro b hb
        rcases List.mem_append.mp hb with hb | hb
        · exact hpost b hb
        · simp only [List.mem_singleton] at hb
          exact hb ▸ hm

/-- The pushes of a history with one more event. -/
theorem pushes_snoc {α : Type} (tr : List (Event α)) (e : Event α) :
    pushes (tr ++ [e]) = pushes tr ++ (match e with | .push b => [b] | _ => []) := by
  cases e <;> simp [pushes, List.filterMap_append]

/-- The pops of a history with one more event. -/
theorem pops_snoc {α : Type} (tr : List (Event α)) (e : Event α) :
    pops (tr ++ [e]) = pops tr ++ (match e with | .pop w b x => [(w, b, x)] | _ => []) := by
  cases e <;> simp [pops, List.filterMap_append]

/-- The first submissions of a history with one more event. -/
theorem firstSubmissions_snoc {α : Type} (tr : List (Event α)) (e : Event α) :
    firstSubmissions (tr ++ [e]) =
      firstSubmissions tr ++ (match e with | .submit _ b false => [b] | _ => []) := by
  cases e with
  | submit w b again => cases again <;> simp [firstSubmissions, List.filterMap_append]
  | _ => simp [firstSubmissions, List.filterMap_append]

/-! ### Threads created by a step -/

/-- A thread appended at its loop head does not put an older index elsewhere. -/
theorem getElem?_append_loopTop {α : Type} (ws : List (WorkerPc α)) (w : Nat)
    (pc : WorkerPc α) (hpc : pc ≠ .loopTop) (h : (ws ++ [WorkerPc.loopTop])[w]? = some pc) :
    ws[w]? = some pc := by
  rw [List.getElem?_append] at h
  split at h
  · exact h
  · cases hk : w - ws.length with
    | zero => simp [hk] at h; exact absurd h.symm hpc
    | succ k => simp [hk] at h

/-- A block of `yami_dec_frame` keeps the threads, or adds one at its loop head. -/
theorem yami_dec_frame_workers (s t : DecSession) (out : FetchResult)
    (h : yami_dec_frame s out = some t) :
    t.workers = s.workers ∨ t.workers = s.workers ++ [WorkerPc.loopTop] := by
  unfold yami_dec_frame at h
  dsimp only at h
  repeat' split at h
  all_goals (try simp only [Option.some.injEq, reduceCtorEq] at h)
  all_goals (try subst h)
  all_goals simp_all [Session.log]

/-- A block of `yami_dec_close` keeps the threads. -/
theorem yami_dec_close_workers (s t : DecSession)
    (h : yami_dec_close s = some t) : t.workers = s.workers := by
  unfold yami_dec_close at h
  dsimp only at h
  repeat' split at h
  all_goals (try simp only [Option.some.injEq, reduceCtorEq] at h)
  all_goals (try subst h)
  all_goals simp_all [Session.log]

/-- A block of `decodeThread` creates no thread. -/
theorem decodeThread_workers_length (s t : DecSession) (w : Nat) (r : SubmitResult)
    (h : decodeThread s w r = some t) : t.workers.length = s.workers.length := by
  unfold decodeThread at h
  repeat' split at h
  all_goals (try simp only [Option.some.injEq, reduceCtorEq] at h)
  all_goals (try subst h)
  all_goals simp_all [Session.setWorker, Session.log]

/-- A decode step never removes a thread from the list. -/
theorem dec_step_workers_length (s : DecSession) (a : Action AVPacket) (t : DecSession)
    (h : dec_step s a = some t) : s.workers.length ≤ t.workers.length := by
  cases a with
  | call pkt =>
    simp only [dec_step] at h
    repeat' split at h
    all_goals (try simp only [Option.some.injEq, reduceCtorEq] at h)
    all_goals (try subst h)
    all_goals simp_all [Session.log]
  | close =>
    simp only [dec_step] at h
    repeat' split at h
    all_goals (try simp only [Option.some.injEq, reduceCtorEq] at h)
    all_goals (try subst h)
    all_goals simp_all
  | caller out =>
    simp only [dec_step] at h
    split at h
    · rw [yami_dec_close_workers s t h]
    · rw [yami_dec_close_workers s t h]
    · rcases yami_dec_frame_workers s t out h with hw | hw
      · rw [hw]
      · rw [hw]; simp
  | worker w r =>
    rw [decodeThread_workers_length s t w r h]

/-- A block of `yami_enc_frame` keeps the threads, or adds one at its loop head. -/
theorem yami_enc_frame_workers (s t : EncSession) (out : FetchResult)
    (h : yami_enc_frame s out = some t) :
    t.workers = s.workers ∨ t.workers = s.workers ++ [WorkerPc.loopTop] := by
  unfold yami_enc_frame at h
  dsimp only at h
  repeat' split at h
  all_goals (try simp only [Option.some.injEq, reduceCtorEq] at h)
  all_goals (try subst h)
  all_goals simp_all [Session.log]

/-- A block of `yami_enc_close` keeps the threads. -/
theorem yami_enc_close_workers (s t : EncSession)
    (h : yami_enc_close s = some t) : t.workers = s.workers := by
  unfold yami_enc_close at h
  dsimp only at h
  repeat' split at h
  all_goals (try simp only [Option.some.injEq, reduceCtorEq] at h)
  all_goals (try subst h)
  all_goals simp_all [Session.log]

/-- A block of `encodeThread` creates no thread. -/
theorem encodeThread_workers_length (s t : EncSession) (w : Nat) (r : SubmitResult)
    (h : encodeThread s w r = some t) : t.workers.length = s.workers.length := by
  unfold encodeThread at h
  repeat' split at h
  all_goals (try simp only [Option.some.injEq, reduceCtorEq] at h)
  all_goals (try subst h)
  all_goals simp_all [Session.setWorker, Session.log]

/-- An encode step never removes a thread from the list. -/
theorem enc_step_workers_length (s : EncSession) (a : Action (Option AVFrame)) (t : EncSession)
    (h : enc_step s a = some t) : s.workers.length ≤ t.workers.length := by
  cases a with
  | call pkt =>
    simp only [enc_step] at h
    repeat' split at h
    all_goals (try simp only [Option.some.injEq, reduceCtorEq] at h)
    all_goals (try subst h)
    all_goals simp_all [Session.log]
  | close =>
    simp only [enc_step] at h
    repeat' split at h
    all_goals (try simp only [Option.some.injEq, reduceCtorEq] at h)
    all_goals (try subst h)
    all_goals simp_all
  | caller out =>
    simp only [enc_step] at h
    split at h
    · rw [yami_enc_close_workers s t h]
    · rw [yami_enc_close_workers s t h]
    · rcases yami_enc_frame_workers s t out h with hw | hw
      · rw [hw]
      · rw [hw]; simp
  | worker w r =>
    rw [encodeThread_workers_length s t w r h]

/-! ### C1: the queue never holds more than eight units -/

/-- A block of `decodeThread` never lengthens the queue. -/
theorem decodeThread_queue_le (s t : DecSession) (w : Nat) (r : SubmitResult)
    (h : decodeThread s w r = some t) : t.in_queue.length ≤ s.in_queue.length := by
  unfold decodeThread at h
  repeat' split at h
  all_goals simp_all [Session.setWorker, Session.log]
  all_goals (subst h; simp_all)

/-- A block of `encodeThread` never lengthens the queue. -/
theorem encodeThread_queue_le (s t : EncSession) (w : Nat) (r : SubmitResult)
    (h : encodeThread s w r = some t) : t.in_queue.length ≤ s.in_queue.length := by
  unfold encodeThread at h
  repeat' split at h
  all_goals simp_all [Session.setWorker, Session.log]
  all_goals (subst h; simp_all)

/-- A block of `yami_dec_frame` keeps the queue within `QUEUE_MAX_SIZE`. -/
theorem yami_dec_frame_queue_le (s t : DecSession) (out : FetchResult)
    (hs : s.in_queue.length ≤ QUEUE_MAX_SIZE)
    (h : yami_dec_frame s out = some t) : t.in_queue.length ≤ QUEUE_MAX_SIZE := by
  unfold yami_dec_frame at h
  dsimp only at h
  repeat' split at h
  all_goals simp_all [Session.log]
  all_goals (try subst h)
  all_goals (try simp_all)
  omega

/-- A block of `yami_enc_frame` keeps the queue within `QUEUE_MIN_SIZE`. -/
theorem yami_enc_frame_queue_le (s t : EncSession) (out : FetchResult)
    (hs : s.in_queue.length ≤ QUEUE_MIN_SIZE)
    (h : yami_enc_frame s out = some t) : t.in_queue.length ≤ QUEUE_MIN_SIZE := by
  unfold yami_enc_frame at h
  dsimp only at h
  repeat' split at h
  all_goals simp_all [Session.log]
  all_goals (try subst h)
  all_goals (try simp_all)
  omega

/-- A block of `yami_dec_close` never lengthens the queue. -/
theorem yami_dec_close_queue_le (s t : DecSession)
    (h : yami_dec_close s = some t) : t.in_queue.length ≤ s.in_queue.length := by
  unfold yami_dec_close at h
  dsimp only at h
  repeat' split at h
  all_goals simp_all [Session.log]
  all_goals (subst h; simp_all)

/-- A block of `yami_enc_close` never lengthens the queue. -/
theorem yami_enc_close_queue_le (s t : EncSession)
    (h : yami_enc_close s = some t) : t.in_queue.length ≤ s.in_queue.length := by
  unfold yami_enc_close at h
  dsimp only at h
  repeat' split at h
  all_goals simp_all [Session.log]
  all_goals (subst h; simp_all)

/-- Every step of a decode session keeps the queue within `QUEUE_MAX_SIZE`. -/
theorem dec_step_queue_le (s : DecSession) (a : Action AVPacket) (t : DecSession)
    (hs : s.in_queue.length ≤ QUEUE_MAX_SIZE)
    (h : dec_step s a = some t) : t.in_queue.length ≤ QUEUE_MAX_SIZE := by
  cases a with
  | call pkt =>
    simp only [dec_step] at h
    repeat' split at h
    all_goals simp_all [Session.log]
    all_goals (subst h; simp_all)
  | close =>
    simp only [dec_step] at h
    repeat' split at h
    all_goals simp_all
    all_goals (subst h; simp_all)
  | caller out =>
    simp only [dec_step] at h
    split at h
    · exact le_trans (yami_dec_close_queue_le s t h) hs
    · exact le_trans (yami_dec_close_queue_le s t h) hs
    · exact yami_dec_frame_queue_le s t out hs h
  | worker w r =>
    exact le_trans (decodeThread_queue_le s t w r h) hs

/-- Every step of an encode session keeps the queue within `QUEUE_MIN_SIZE`. -/
theorem enc_step_queue_le (s : EncSession) (a : Action (Option AVFrame)) (t : EncSession)
    (hs : s.in_queue.length ≤ QUEUE_MIN_SIZE)
    (h : enc_step s a = some t) : t.in_queue.length ≤ QUEUE_MIN_SIZE := by
  cases a with
  | call pkt =>
    simp only [enc_step] at h
    repeat' split at h
    all_goals simp_all [Session.log]
    all_goals (subst h; simp_all)
  | close =>
    simp only [enc_step] at h
    repeat' split at h
    all_goals simp_all
    all_goals (subst h; simp_all)
  | caller out =>
    simp only [enc_step] at h
    split at h
    · exact le_trans (yami_enc_close_queue_le s t h) hs
    · exact le_trans (yami_enc_close_queue_le s t h) hs
    · exact yami_enc_frame_queue_le s t out hs h
  | worker w r =>
    exact le_trans (encodeThread_queue_le s t w r h) hs

/-- C1: in every state that a decode session and an encode session reach from
the empty queue of session open, under any schedule of caller blocks, worker
blocks and close, `in_queue` holds at most `QUEUE_MAX_SIZE` (decode) and
`QUEUE_MIN_SIZE` (encode) units, and both constants are 8. -/
theorem queue_capacity_invariant
    (da : List (Action AVPacket)) (ea : List (Action (Option AVFrame)))
    (sd : DecSession) (se : EncSession)
    (hd : run dec_step dec_open da = some sd)
    (he : run enc_step enc_open ea = some se) :
    sd.in_queue.length ≤ 8 ∧ se.in_queue.length ≤ 8 ∧
      QUEUE_MAX_SIZE = 8 ∧ QUEUE_MIN_SIZE = 8 := by
  have h1 : sd.in_queue.length ≤ QUEUE_MAX_SIZE :=
    run_invariant dec_step (fun s => s.in_queue.length ≤ QUEUE_MAX_SIZE)
      dec_step_queue_le da dec_open sd (by simp [dec_open]) hd
  have h2 : se.in_queue.length ≤ QUEUE_MIN_SIZE :=
    run_invariant enc_step (fun s => s.in_queue.length ≤ QUEUE_MIN_SIZE)
      enc_step_queue_le ea enc_open se (by simp [enc_open]) he
  exact ⟨h1, h2, rfl, rfl⟩

/-- C1 at schedules that fill both queues: the bound is reached, not passed. -/
theorem queue_capacity_invariant_witness :
    run dec_step dec_open dec_fill = some dec_filled ∧
      run enc_step enc_open enc_fill = some enc_filled ∧
      dec_filled.in_queue.length = 8 ∧ enc_filled.in_queue.length = 8 ∧
      (dec_filled.in_queue.length ≤ 8 ∧ enc_filled.in_queue.length ≤ 8 ∧
        QUEUE_MAX_SIZE = 8 ∧ QUEUE_MIN_SIZE = 8) :=
  ⟨by decide, by decide, by decide, by decide,
    queue_capacity_invariant dec_fill enc_fill dec_filled enc_filled (by decide) (by decide)⟩

/-! ### C2: order of submission

With a single worker the order holds (`dec_single_worker_order`,
`enc_single_worker_order`); the evaluation that follows them is a run with two
workers alive. -/

/-- A push keeps the order invariant. -/
theorem OrderInv.push {α : Type} {ps fs : List α} {pp : List (Nat × α × α)} {d : Bool}
    {q : List α} {pc : Option (WorkerPc α)} (h : OrderInv ps fs pp d q pc) (b : α) :
    OrderInv (ps ++ [b]) fs pp d (q ++ [b]) pc := by
  obtain ⟨rest, h1, h2, h3, h4, h5⟩ := h
  refine ⟨rest ++ [b], by rw [h1, List.append_assoc], fun hd => by rw [h2 hd], ?_, h4, h5⟩
  intro x hx
  have := h3 x hx
  cases rest with
  | nil => simp at this
  | cons y ys => simpa using this

/-- A move between program counters that hold nothing keeps the invariant. -/
theorem OrderInv.quiet {α : Type} {ps fs : List α} {pp : List (Nat × α × α)} {d : Bool}
    {q : List α} {pc : Option (WorkerPc α)} (h : OrderInv ps fs pp d q pc)
    (pc' : Option (WorkerPc α)) (hp : (pc.map WorkerPc.pending).getD [] = [])
    (hh : pc'.bind WorkerPc.held = none) (hp' : (pc'.map WorkerPc.pending).getD [] = []) :
    OrderInv ps fs pp d q pc' := by
  obtain ⟨rest, h1, h2, h3, h4, h5⟩ := h
  refine ⟨rest, h1, h2, ?_, ?_, h5⟩
  · intro b hb; rw [hh] at hb; cases hb
  · rw [h4, hp, hp']

/-- Taking the front unit keeps the invariant. -/
theorem OrderInv.take {α : Type} {ps fs : List α} {pp : List (Nat × α × α)}
    {q : List α} {pc : Option (WorkerPc α)} (h : OrderInv ps fs pp false q pc)
    (b : α) (tl : List α) (hq : q = b :: tl)
    (hp : (pc.map WorkerPc.pending).getD [] = []) :
    OrderInv ps fs pp false q (some (.submit b)) := by
  obtain ⟨rest, h1, h2, h3, h4, h5⟩ := h
  refine ⟨rest, h1, h2, ?_, ?_, h5⟩
  · intro x hx
    simp only [Option.some_bind, WorkerPc.held, Option.some.injEq] at hx
    rw [← h2 rfl, hq, ← hx]; rfl
  · rw [h4, hp]; rfl

/-- The first engine call on the held unit keeps the invariant. -/
theorem OrderInv.first {α : Type} {ps fs : List α} {pp : List (Nat × α × α)} {d : Bool}
    {q : List α} {b : α} (h : OrderInv ps fs pp d q (some (.submit b)))
    (pc' : WorkerPc α) (hh : pc'.held = some b) (hp' : pc'.pending = [b]) :
    OrderInv ps (fs ++ [b]) pp d q (some pc') := by
  obtain ⟨rest, h1, h2, h3, h4, h5⟩ := h
  refine ⟨rest, h1, h2, ?_, ?_, h5⟩
  · intro x hx
    simp only [Option.some_bind, hh, Option.some.injEq] at hx
    exact h3 x (by simpa [WorkerPc.held] using hx)
  · rw [h4]
    simp only [Option.map_some', Option.getD_some, hp']
    simp [WorkerPc.pending]

/-- A repeated engine call on the held unit keeps the invariant. -/
theorem OrderInv.again {α : Type} {ps fs : List α} {pp : List (Nat × α × α)} {d : Bool}
    {q : List α} {b : α} (h : OrderInv ps fs pp d q (some (.resubmit b))) :
    OrderInv ps fs pp d q (some (.popFront b)) := by
  obtain ⟨rest, h1, h2, h3, h4, h5⟩ := h
  exact ⟨rest, h1, h2, h3, h4, h5⟩

/-- The pop removes the held unit and keeps the invariant. -/
theorem OrderInv.pop {α : Type} {ps fs : List α} {pp : List (Nat × α × α)}
    {q : List α} {b : α} (h : OrderInv ps fs pp false q (some (.popFront b)))
    (w : Nat) (x : α) (tl : List α) (hq : q = x :: tl) :
    OrderInv ps fs (pp ++ [(w, b, x)]) false tl (some .loopTop) := by
  obtain ⟨rest, h1, h2, h3, h4, h5⟩ := h
  have hr : rest = x :: tl := by rw [← h2 rfl, hq]
  have hb : x = b := by
    have := h3 b rfl
    rw [hr] at this
    simpa using this
  subst hb
  refine ⟨tl, ?_, fun _ => rfl, ?_, ?_, ?_⟩
  · rw [h1, hr]; simp
  · intro y hy; simp [WorkerPc.held] at hy
  · rw [h4]; simp [WorkerPc.pending]
  · intro e he
    rcases List.mem_append.mp he with he | he
    · exact h5 e he
    · simp only [List.mem_singleton] at he
      rw [he]

/-- Deleting the queue keeps the invariant. -/
theorem OrderInv.delete {α : Type} {ps fs : List α} {pp : List (Nat × α × α)} {d : Bool}
    {q : List α} {pc : Option (WorkerPc α)} (h : OrderInv ps fs pp d q pc) :
    OrderInv ps fs pp true [] pc := by
  obtain ⟨rest, h1, _, h3, h4, h5⟩ := h
  exact ⟨rest, h1, fun hd => Bool.noConfusion hd, h3, h4, h5⟩

/-- What the invariant gives: the first submissions are an initial segment of
the pushes and every pop removed the unit that was submitted. -/
theorem OrderInv.result {α : Type} {ps fs : List α} {pp : List (Nat × α × α)} {d : Bool}
    {q : List α} {pc : Option (WorkerPc α)} (h : OrderInv ps fs pp d q pc) :
    fs <+: ps ∧ ∀ e ∈ pp, e.2.1 = e.2.2 := by
  obtain ⟨rest, h1, _, h3, h4, h5⟩ := h
  refine ⟨?_, h5⟩
  rw [h1, h4]
  cases pc with
  | none => simp
  | some pc =>
    cases pc with
    | resubmit b =>
      have := h3 b rfl
      cases rest with
      | nil => simp at this
      | cons y ys =>
        simp only [List.head?_cons, Option.some.injEq] at this
        subst this
        simp [WorkerPc.pending]
    | popFront b =>
      have := h3 b rfl
      cases rest with
      | nil => simp at this
      | cons y ys =>
        simp only [List.head?_cons, Option.some.injEq] at this
        subst this
        simp [WorkerPc.pending]
    | _ => simp [WorkerPc.pending]

/-- A block of `decodeThread` keeps the order invariant of a single worker. -/
theorem decodeThread_order (s t : DecSession) (w : Nat) (r : SubmitResult)
    (h : decodeThread s w r = some t) (hlen : s.workers.length ≤ 1)
    (hs : SingleWorkerOrder s) : SingleWorkerOrder t := by
  have hw : w = 0 := by
    unfold decodeThread at h
    cases hw : s.workers[w]? with
    | none => simp [hw] at h
    | some pc =>
      rcases List.getElem?_eq_some.mp hw with ⟨hlt, _⟩
      omega
  subst hw
  have hset : ∀ pc0 pc : WorkerPc VideoDecodeBuffer, s.workers[0]? = some pc0 →
      (s.workers.set 0 pc)[0]? = some pc := by
    intro pc0 pc hpc
    rcases List.getElem?_eq_some.mp hpc with ⟨hlt, _⟩
    simp [List.getElem?_set, hlt]
  unfold decodeThread at h
  unfold SingleWorkerOrder at hs ⊢
  split at h
  · cases h
  · next hpc =>
    rw [hpc] at hs
    split at h
    · cases h
    · next hd =>
      have hd' : s.queue_deleted = false := by simpa using hd
      split at h
      · split at h
        all_goals
          simp only [Option.some.injEq] at h
          subst h
          simp only [Session.setWorker, Session.log, pushes_snoc, pops_snoc,
            firstSubmissions_snoc, hset _ _ hpc, List.append_nil]
          exact hs.quiet _ rfl rfl rfl
      · next b tl hq =>
        simp only [Option.some.injEq] at h
        subst h
        simp only [Session.setWorker, hset _ _ hpc]
        rw [hd'] at hs ⊢
        exact hs.take b tl hq rfl
  · next hpc =>
    rw [hpc] at hs
    split at h
    · cases h
    · next hd =>
      have hd' : s.queue_deleted = false := by simpa using hd
      split at h
      · simp only [Option.some.injEq] at h
        subst h
        simp only [Session.setWorker, hset _ _ hpc]
        exact hs.quiet _ rfl rfl rfl
      · next b tl hq =>
        simp only [Option.some.injEq] at h
        subst h
        simp only [Session.setWorker, hset _ _ hpc]
        rw [hd'] at hs ⊢
        exact hs.take b tl hq rfl
  · next b hpc =>
    rw [hpc] at hs
    split at h
    · cases h
    · split at h
      all_goals
        simp only [Option.some.injEq] at h
        subst h
        simp only [Session.setWorker, Session.log, pushes_snoc, pops_snoc,
          firstSubmissions_snoc, hset _ _ hpc, List.append_nil]
        exact hs.first _ rfl rfl
  · next b hpc =>
    rw [hpc] at hs
    split at h
    · cases h
    · simp only [Option.some.injEq] at h
      subst h
      simp only [Session.setWorker, Session.log, pushes_snoc, pops_snoc,
        firstSubmissions_snoc, hset _ _ hpc, List.append_nil]
      exact hs.again
  · next b hpc =>
    rw [hpc] at hs
    split at h
    · cases h
    · next hd =>
      have hd' : s.queue_deleted = false := by simpa using hd
      split at h
      · cases h
      · next x tl hq =>
        simp only [Option.some.injEq] at h
        subst h
        simp only [Session.setWorker, Session.log, pushes_snoc, pops_snoc,
          firstSubmissions_snoc, hset _ _ hpc, List.append_nil]
        rw [hd'] at hs ⊢
        exact hs.pop 0 x tl hq
  · next hpc =>
    rw [hpc] at hs
    simp only [Option.some.injEq] at h
    subst h
    simp only [Session.setWorker, Session.log, pushes_snoc, pops_snoc,
      firstSubmissions_snoc, hset _ _ hpc, List.append_nil]
    exact hs.quiet _ rfl rfl rfl
  · cases h

/-- A block of `yami_dec_frame` keeps the order invariant of a single worker. -/
theorem yami_dec_frame_order (s t : DecSession) (out : FetchResult)
    (h : yami_dec_frame s out = some t) (hlen : t.workers.length ≤ 1)
    (hs : SingleWorkerOrder s) : SingleWorkerOrder t := by
  unfold yami_dec_frame at h
  dsimp only at h
  unfold SingleWorkerOrder at hs ⊢
  split at h
  · split at h
    · split at h
      · simp only [Option.some.injEq] at h
        subst h
        simp only [Session.log, pushes_snoc, pops_snoc, firstSubmissions_snoc,
          List.append_nil]
        exact hs.push _
      · simp only [Option.some.injEq] at h
        subst h
        exact hs
    · simp only [Option.some.injEq] at h
      subst h
      exact hs
  · split at h
    · simp only [Option.some.injEq] at h
      subst h
      simp only [Session.log, List.length_append, List.length_singleton] at hlen
      have hnil : s.workers = [] := List.length_eq_zero.mp (by omega)
      simp only [Session.log, pushes_snoc, pops_snoc, firstSubmissions_snoc,
        List.append_nil, hnil, List.nil_append] at hs ⊢
      exact hs.quiet _ rfl rfl rfl
    · simp only [Option.some.injEq] at h
      subst h
      exact hs
  · split at h
    · simp only [Option.some.injEq] at h
      subst h
      exact hs
    · split at h
      all_goals
        simp only [Option.some.injEq] at h
        subst h
        simp only [Session.log, pushes_snoc, pops_snoc, firstSubmissions_snoc,
          List.append_nil]
        exact hs
  · split at h
    · simp only [Option.some.injEq] at h
      subst h
      exact hs
    · simp only [Option.some.injEq] at h
      subst h
      simp only [Session.log, pushes_snoc, pops_snoc, firstSubmissions_snoc,
        List.append_nil]
      exact hs
  · cases h

/-- A block of `yami_dec_close` keeps the order invariant. -/
theorem yami_dec_close_order (s t : DecSession)
    (h : yami_dec_close s = some t) (hs : SingleWorkerOrder s) : SingleWorkerOrder t := by
  unfold yami_dec_close at h
  dsimp only at h
  unfold SingleWorkerOrder at hs ⊢
  split at h
  · split at h
    all_goals
      simp only [Option.some.injEq] at h
      subst h
      exact hs
  · simp only [Option.some.injEq] at h
    subst h
    split
    all_goals
      simp only [Session.log, pushes_snoc, pops_snoc, firstSubmissions_snoc,
        List.append_nil]
      exact hs.delete
  · cases h

/-- A decode step keeps the order invariant while there is a single worker. -/
theorem dec_step_order (s : DecSession) (a : Action AVPacket) (t : DecSession)
    (h : dec_step s a = some t) (hlen : t.workers.length ≤ 1)
    (hs : SingleWorkerOrder s) : SingleWorkerOrder t := by
  cases a with
  | call pkt =>
    simp only [dec_step] at h
    unfold SingleWorkerOrder at hs ⊢
    split at h
    · split at h
      all_goals
        simp only [Option.some.injEq] at h
        subst h
        simp only [Session.log, pushes_snoc, pops_snoc, firstSubmissions_snoc,
          List.append_nil]
        exact hs
    · cases h
  | close =>
    simp only [dec_step] at h
    unfold SingleWorkerOrder at hs ⊢
    split at h
    · simp only [Option.some.injEq] at h
      subst h
      exact hs
    · cases h
  | caller out =>
    simp only [dec_step] at h
    split at h
    · exact yami_dec_close_order s t h hs
    · exact yami_dec_close_order s t h hs
    · exact yami_dec_frame_order s t out h hlen hs
  | worker w r =>
    have := decodeThread_workers_length s t w r h
    exact decodeThread_order s t w r h (by omega) hs

/-- Decode, as long as a single worker thread has been created: the first
submissions are an initial segment of the pushes, in the same order, and every
`pop_front()` removed the unit the worker had submitted. -/
theorem dec_single_worker_order (acts : List (Action AVPacket)) (s : DecSession)
    (h : run dec_step dec_open acts = some s) (hlen : s.workers.length ≤ 1) :
    firstSubmissions s.trace <+: pushes s.trace ∧ ∀ e ∈ pops s.trace, e.2.1 = e.2.2 := by
  have hinv : s.workers.length ≤ 1 → SingleWorkerOrder s :=
    run_invariant dec_step (fun u => u.workers.length ≤ 1 → SingleWorkerOrder u)
      (fun u a t hu hstep ht =>
        dec_step_order u a t hstep ht
          (hu (le_trans (dec_step_workers_length u a t hstep) ht)))
      acts dec_open s
      (fun _ => ⟨[], rfl, fun _ => rfl, fun b hb => by simp [dec_open] at hb, rfl,
        fun e he => by simp [dec_open, pops] at he⟩) h
  exact (hinv hlen).result

/-- A block of `encodeThread` keeps the order invariant of a single worker. -/
theorem encodeThread_order (s t : EncSession) (w : Nat) (r : SubmitResult)
    (h : encodeThread s w r = some t) (hlen : s.workers.length ≤ 1)
    (hs : SingleWorkerOrder s) : SingleWorkerOrder t := by
  have hw : w = 0 := by
    unfold encodeThread at h
    cases hw : s.workers[w]? with
    | none => simp [hw] at h
    | some pc =>
      rcases List.getElem?_eq_some.mp hw with ⟨hlt, _⟩
      omega
  subst hw
  have hset : ∀ pc0 pc : WorkerPc AVFrame, s.workers[0]? = some pc0 →
      (s.workers.set 0 pc)[0]? = some pc := by
    intro pc0 pc hpc
    rcases List.getElem?_eq_some.mp hpc with ⟨hlt, _⟩
    simp [List.getElem?_set, hlt]
  unfold encodeThread at h
  unfold SingleWorkerOrder at hs ⊢
  split at h
  · cases h
  · next hpc =>
    rw [hpc] at hs
    split at h
    · cases h
    · next hd =>
      have hd' : s.queue_deleted = false := by simpa using hd
      split at h
      · split at h
        all_goals
          simp only [Option.some.injEq] at h
          subst h
          simp only [Session.setWorker, Session.log, pushes_snoc, pops_snoc,
            firstSubmissions_snoc, hset _ _ hpc, List.append_nil]
          exact hs.quiet _ rfl rfl rfl
      · next b tl hq =>
        simp only [Option.some.injEq] at h
        subst h
        simp only [Session.setWorker, hset _ _ hpc]
        rw [hd'] at hs ⊢
        exact hs.take b tl hq rfl
  · next hpc =>
    rw [hpc] at hs
    split at h
    · cases h
    · next hd =>
      have hd' : s.queue_deleted = false := by simpa using hd
      split at h
      · simp only [Option.some.injEq] at h
        subst h
        simp only [Session.setWorker, hset _ _ hpc]
        exact hs.quiet _ rfl rfl rfl
      · next b tl hq =>
        simp only [Option.some.injEq] at h
        subst h
        simp only [Session.setWorker, hset _ _ hpc]
        rw [hd'] at hs ⊢
        exact hs.take b tl hq rfl
  · next b hpc =>
    rw [hpc] at hs
    split at h
    · cases h
    · split at h
      all_goals
        simp only [Option.some.injEq] at h
        subst h
        simp only [Session.setWorker, Session.log, pushes_snoc, pops_snoc,
          firstSubmissions_snoc, hset _ _ hpc, List.append_nil]
        exact hs.first _ rfl rfl
  · next b hpc =>
    rw [hpc] at hs
    split at h
    · cases h
    · split at h
      · simp only [Option.some.injEq] at h
        subst h
        simp only [Session.setWorker, Session.log, pushes_snoc, pops_snoc,
          firstSubmissions_snoc, hset _ _ hpc, List.append_nil]
        exact hs
      · simp only [Option.some.injEq] at h
        subst h
        simp only [Session.setWorker, Session.log, pushes_snoc, pops_snoc,
          firstSubmissions_snoc, hset _ _ hpc, List.append_nil]
        exact hs.again
  · next b hpc =>
    rw [hpc] at hs
    split at h
    · cases h
    · next hd =>
      have hd' : s.queue_deleted = false := by simpa using hd
      split at h
      · cases h
      · next x tl hq =>
        simp only [Option.some.injEq] at h
        subst h
        simp only [Session.setWorker, Session.log, pushes_snoc, pops_snoc,
          firstSubmissions_snoc, hset _ _ hpc, List.append_nil]
        rw [hd'] at hs ⊢
        exact hs.pop 0 x tl hq
  · next hpc =>
    rw [hpc] at hs
    simp only [Option.some.injEq] at h
    subst h
    simp only [Session.setWorker, Session.log, pushes_snoc, pops_snoc,
      firstSubmissions_snoc, hset _ _ hpc, List.append_nil]
    exact hs.quiet _ rfl rfl rfl
  · cases h

/-- A block of `yami_enc_frame` keeps the order invariant of a single worker. -/
theorem yami_enc_frame_order (s t : EncSession) (out : FetchResult)
    (h : yami_enc_frame s out = some t) (hlen : t.workers.length ≤ 1)
    (hs : SingleWorkerOrder s) : SingleWorkerOrder t := by
  unfold yami_enc_frame at h
  dsimp only at h
  unfold SingleWorkerOrder at hs ⊢
  split at h
  · simp only [Option.some.injEq] at h
    subst h
    exact hs
  · split at h
    · split at h
      · simp only [Option.some.injEq] at h
        subst h
        simp only [Session.log, pushes_snoc, pops_snoc, firstSubmissions_snoc,
          List.append_nil]
        exact hs.push _
      · simp only [Option.some.injEq] at h
        subst h
        exact hs
    · simp only [Option.some.injEq] at h
      subst h
      exact hs
  · split at h
    · simp only [Option.some.injEq] at h
      subst h
      simp only [Session.log, List.length_append, List.length_singleton] at hlen
      have hnil : s.workers = [] := List.length_eq_zero.mp (by omega)
      simp only [Session.log, pushes_snoc, pops_snoc, firstSubmissions_snoc,
        List.append_nil, hnil, List.nil_append] at hs ⊢
      exact hs.quiet _ rfl rfl rfl
    · simp only [Option.some.injEq] at h
      subst h
      exact hs
  · split at h
    · simp only [Option.some.injEq] at h
      subst h
      simp only [Session.log, pushes_snoc, pops_snoc, firstSubmissions_snoc,
        List.append_nil]
      exact hs
    · split at h
      all_goals
        simp only [Option.some.injEq] at h
        subst h
        simp only [Session.log, pushes_snoc, pops_snoc, firstSubmissions_snoc,
          List.append_nil]
        exact hs
  · cases h

/-- A block of `yami_enc_close` keeps the order invariant. -/
theorem yami_enc_close_order (s t : EncSession)
    (h : yami_enc_close s = some t) (hs : SingleWorkerOrder s) : SingleWorkerOrder t := by
  unfold yami_enc_close at h
  dsimp only at h
  unfold SingleWorkerOrder at hs ⊢
  split at h
  · split at h
    all_goals
      simp only [Option.some.injEq] at h
      subst h
      exact hs
  · simp only [Option.some.injEq] at h
    subst h
    split
    all_goals
      simp only [Session.log, pushes_snoc, pops_snoc, firstSubmissions_snoc,
        List.append_nil]
      exact hs.delete
  · cases h

/-- An encode step keeps the order invariant while there is a single worker. -/
theorem enc_step_order (s : EncSession) (a : Action (Option AVFrame)) (t : EncSession)
    (h : enc_step s a = some t) (hlen : t.workers.length ≤ 1)
    (hs : SingleWorkerOrder s) : SingleWorkerOrder t := by
  cases a with
  | call pkt =>
    simp only [enc_step] at h
    unfold SingleWorkerOrder at hs ⊢
    split at h
    · split at h
      all_goals
        simp only [Option.some.injEq] at h
        subst h
        simp only [Session.log, pushes_snoc, pops_snoc, firstSubmissions_snoc,
          List.append_nil]
        exact hs
    · cases h
  | close =>
    simp only [enc_step] at h
    unfold SingleWorkerOrder at hs ⊢
    split at h
    · simp only [Option.some.injEq] at h
      subst h
      exact hs
    · cases h
  | caller out =>
    simp only [enc_step] at h
    split at h
    · exact yami_enc_close_order s t h hs
    · exact yami_enc_close_order s t h hs
    · exact yami_enc_frame_order s t out h hlen hs
  | worker w r =>
    have := encodeThread_workers_length s t w r h
    exact encodeThread_order s t w r h (by omega) hs

/-- Encode, as long as a single worker thread has been created: the first
submissions are an initial segment of the pushes, in the same order, and every
`pop_front()` removed the unit the worker had submitted. -/
theorem enc_single_worker_order (acts : List (Action (Option AVFrame))) (s : EncSession)
    (h : run enc_step enc_open acts = some s) (hlen : s.workers.length ≤ 1) :
    firstSubmissions s.trace <+: pushes s.trace ∧ ∀ e ∈ pops s.trace, e.2.1 = e.2.2 := by
  have hinv : s.workers.length ≤ 1 → SingleWorkerOrder s :=
    run_invariant enc_step (fun u => u.workers.length ≤ 1 → SingleWorkerOrder u)
      (fun u a t hu hstep ht =>
        enc_step_order u a t hstep ht
          (hu (le_trans (enc_step_workers_length u a t hstep) ht)))
      acts enc_open s
      (fun _ => ⟨[], rfl, fun _ => rfl, fun b hb => by simp [enc_open] at hb, rfl,
        fun e he => by simp [enc_open, pops] at he⟩) h
  exact (hinv hlen).result

/-- C2, evaluated at the schedules `enc_double` and `dec_double` (two workers
alive after a restart): the unit pushed second-to-last is submitted to the
engine by both workers, so the first submissions are not an initial segment of
the pushes, and worker 1 removes from the queue a unit (number 3) that is not
the unit it submitted (number 2) and that was never submitted. -/
theorem fifo_order_fails_with_two_workers :
    ((run enc_step enc_open enc_double).map fun s =>
        (firstSubmissions s.trace, pushes s.trace, pops s.trace, s.in_queue)) =
      some ([frame 1, frame 2, frame 2], [frame 1, frame 2, frame 3],
        [(0, frame 1, frame 1), (0, frame 2, frame 2), (1, frame 2, frame 3)], []) ∧
    ¬ ([frame 1, frame 2, frame 2] <+: [frame 1, frame 2, frame 3]) ∧
    ((run dec_step dec_open dec_double).map fun s =>
        (firstSubmissions s.trace, pushes s.trace, pops s.trace, s.in_queue)) =
      some ([in_buffer (packet 1), in_buffer end_marker, in_buffer (packet 2),
          in_buffer (packet 2)],
        [in_buffer (packet 1), in_buffer end_marker, in_buffer (packet 2),
          in_buffer (packet 3)],
        [(0, in_buffer (packet 1), in_buffer (packet 1)),
          (0, in_buffer end_marker, in_buffer end_marker),
          (0, in_buffer (packet 2), in_buffer (packet 2)),
          (1, in_buffer (packet 2), in_buffer (packet 3))], []) ∧
    ¬ ([in_buffer (packet 1), in_buffer end_marker, in_buffer (packet 2),
          in_buffer (packet 2)] <+:
        [in_buffer (packet 1), in_buffer end_marker, in_buffer (packet 2),
          in_buffer (packet 3)]) :=
  ⟨rfl, by decide, rfl, by decide⟩

/-! ### C3: the unit that restarts the worker -/

/-- Decode, in every idle state of an open session with status `NOT_INIT` and
room in the queue: a call with a packet that has payload appends its unit,
sets `RUNING` and creates a worker. -/
theorem dec_start_from_not_init (s : DecSession) (pkt : AVPacket)
    (out1 out2 : FetchResult)
    (hc : s.caller = .idle) (he : s.engine = true) (hst : s.status = .NOT_INIT)
    (hq : s.in_queue.length < QUEUE_MAX_SIZE)
    (hd : pkt.data = true) (hz : pkt.size ≠ 0) :
    ((run dec_step s [.call pkt, .caller out1, .caller out2]).map fun t =>
        (t.status, t.in_queue, t.workers, pushes t.trace)) =
      some (.RUNING, s.in_queue ++ [in_buffer pkt], s.workers ++ [.loopTop],
        pushes s.trace ++ [in_buffer pkt]) := by
  simp [run, dec_step, yami_dec_frame, dec_status_switch, hc, he, hst, hd, hz, hq,
    ThreadStatus.toNat, Session.log, pushes, List.filterMap_append]

/-- Decode, in every idle state of an open session with status `EXIT`: a call
with a packet that has payload skips the admission loop, sets `RUNING` and
creates a worker; the queue is what it was, whatever it held. -/
theorem dec_restart_from_exit (s : DecSession) (pkt : AVPacket) (out1 out2 : FetchResult)
    (hc : s.caller = .idle) (he : s.engine = true) (hst : s.status = .EXIT)
    (hd : pkt.data = true) (hz : pkt.size ≠ 0) :
    ((run dec_step s [.call pkt, .caller out1, .caller out2]).map fun t =>
        (t.status, t.in_queue, t.workers, pushes t.trace)) =
      some (.RUNING, s.in_queue, s.workers ++ [.loopTop], pushes s.trace) := by
  simp [run, dec_step, yami_dec_frame, dec_status_switch, hc, he, hst, hd, hz,
    ThreadStatus.toNat, Session.log, pushes_snoc]

/-- Encode, in every idle state of an open session with status `EXIT`: a call
with a frame skips the admission loop, sets `RUNING` and creates a worker; the
queue is what it was. -/
theorem enc_restart_from_exit (s : EncSession) (fr : AVFrame) (out1 out2 : FetchResult)
    (hc : s.caller = .idle) (he : s.engine = true) (hst : s.status = .EXIT) :
    ((run enc_step s [.call (some fr), .caller out1, .caller out2]).map fun t =>
        (t.status, t.in_queue, t.workers, pushes t.trace)) =
      some (.RUNING, s.in_queue, s.workers ++ [.loopTop], pushes s.trace) := by
  simp [run, enc_step, yami_enc_frame, enc_status_switch, hc, he, hst,
    ThreadStatus.toNat, Session.log, pushes_snoc]

/-- C3, evaluated at the schedules `dec_after_exit` and `enc_after_exit`: the
call is made in status `EXIT` with an empty queue; it sets the status to
`RUNING` and starts worker 1, but the admission loop is skipped (`EXIT` is not
below `GOT_EOS`): the queue is still empty and the unit is not among the
pushes. -/
theorem restart_from_exit_drops_unit :
    ((run dec_step dec_open dec_exited).map fun s =>
        (s.status, s.in_queue, s.workers, s.caller)) =
      some (.EXIT, [], [.returned], .idle) ∧
    ((run dec_step dec_open dec_after_exit).map fun s =>
        (s.status, s.in_queue, s.workers, pushes s.trace)) =
      some (.RUNING, [], [.returned, .loopTop],
        [in_buffer (packet 1), in_buffer end_marker]) ∧
    ((run enc_step enc_open enc_exited).map fun s =>
        (s.status, s.in_queue, s.workers, s.caller)) =
      some (.EXIT, [], [.returned], .idle) ∧
    ((run enc_step enc_open enc_after_exit).map fun s =>
        (s.status, s.in_queue, s.workers, pushes s.trace)) =
      some (.RUNING, [], [.returned, .loopTop], [frame 1]) :=
  ⟨rfl, rfl, rfl, rfl⟩

/-! ### C4: worker threads and the status -/

/-- C4, evaluated at the schedules `enc_drained`, `enc_restart`, `dec_drained`
and `dec_restart`: after the caller has reset the status of a drained segment
to `NOT_INIT` the worker is still alive (waiting on the condition variable),
and the next unit starts a second worker beside it. -/
theorem second_worker_started_beside_first :
    ((run enc_step enc_open enc_drained).map fun s =>
        (s.status, s.workers, s.liveWorkers)) =
      some (.NOT_INIT, [.condWait], 1) ∧
    ((run enc_step enc_open enc_restart).map fun s =>
        (s.status, s.workers, s.liveWorkers)) =
      some (.RUNING, [.condWait, .loopTop], 2) ∧
    ((run dec_step dec_open dec_drained).map fun s =>
        (s.status, s.workers, s.liveWorkers)) =
      some (.NOT_INIT, [.condWait], 1) ∧
    ((run dec_step dec_open dec_restart).map fun s =>
        (s.status, s.workers, s.liveWorkers)) =
      some (.RUNING, [.condWait, .loopTop], 2) :=
  ⟨rfl, rfl, rfl, rfl⟩

/-! ### C5: status changes and the graph -/

/-- C5 as stated fails at the schedule `dec_drained` followed by close: the
segment is drained, the status is back at `NOT_INIT` and worker 0 waits on the
condition variable; the first pass of the wait loop of `yami_dec_close` changes
the status from `NOT_INIT` to `GOT_EOS`, which is not an edge of the graph.
The same happens on a freshly opened session. -/
theorem close_leaves_status_graph :
    ((run dec_step dec_open (dec_drained ++ [.close])).map fun s =>
        (s.status, s.caller, s.workers)) =
      some (.NOT_INIT, .closeWait, [.condWait]) ∧
    ((run dec_step dec_open (dec_drained ++ [.close, .caller .NotReady])).map fun s =>
        (s.status, s.caller, s.workers)) =
      some (.GOT_EOS, .closeWait, [.condWait]) ∧
    ((run dec_step dec_open [.close, .caller .NotReady]).map fun s =>
        (s.status, s.caller, s.workers)) =
      some (.GOT_EOS, .closeWait, []) ∧
    dec_open.status = .NOT_INIT ∧
    status_edge .NOT_INIT .GOT_EOS = false :=
  ⟨rfl, rfl, rfl, rfl, rfl⟩

/-- The status changes of a block of `decodeThread`: only the store of `EXIT`. -/
theorem decodeThread_status (s t : DecSession) (w : Nat) (r : SubmitResult)
    (h : decodeThread s w r = some t) :
    t.status = s.status ∨ (t.status = .EXIT ∧ s.workers[w]? = some .setExit) := by
  unfold decodeThread at h
  repeat' split at h
  all_goals simp_all [Session.setWorker, Session.log]
  all_goals (subst h; simp_all)

/-- The status changes of a block of `encodeThread`: only the store of `EXIT`. -/
theorem encodeThread_status (s t : EncSession) (w : Nat) (r : SubmitResult)
    (h : encodeThread s w r = some t) :
    t.status = s.status ∨ (t.status = .EXIT ∧ s.workers[w]? = some .setExit) := by
  unfold encodeThread at h
  repeat' split at h
  all_goals simp_all [Session.setWorker, Session.log]
  all_goals (subst h; simp_all)

/-- The status `switch` of `yami_dec_frame` follows the graph. -/
theorem dec_status_switch_edge (st : ThreadStatus) (pkt : AVPacket) (q : Bool) :
    (dec_status_switch st pkt q).1 = st ∨
      status_edge st (dec_status_switch st pkt q).1 = true := by
  cases st <;> simp only [dec_status_switch] <;> split <;> simp [status_edge]

/-- The status `switch` of `yami_enc_frame` follows the graph. -/
theorem enc_status_switch_edge (st : ThreadStatus) (fr : Option AVFrame) (q : Bool) :
    (enc_status_switch st fr q).1 = st ∨
      status_edge st (enc_status_switch st fr q).1 = true := by
  cases st <;> simp only [enc_status_switch] <;> split <;> simp [status_edge]

/-- The status changes of a block of `yami_dec_frame` follow the graph. -/
theorem yami_dec_frame_status (s t : DecSession) (out : FetchResult)
    (h : yami_dec_frame s out = some t) :
    t.status = s.status ∨ status_edge s.status t.status = true := by
  unfold yami_dec_frame at h
  dsimp only at h
  split at h
  · repeat' split at h
    all_goals simp_all [Session.log]
    all_goals (subst h; simp_all)
  · next pkt _ =>
    have hs := dec_status_switch_edge s.status pkt s.in_queue.isEmpty
    split at h
    all_goals simp only [Session.log, Option.some.injEq] at h
    all_goals (subst h; exact hs)
  · repeat' split at h
    all_goals simp_all [Session.log]
    all_goals (subst h; simp_all)
  · repeat' split at h
    all_goals simp_all [Session.log]
    all_goals (subst h; simp_all)
  · cases h

/-- The status changes of a block of `yami_enc_frame` follow the graph. -/
theorem yami_enc_frame_status (s t : EncSession) (out : FetchResult)
    (h : yami_enc_frame s out = some t) :
    t.status = s.status ∨ status_edge s.status t.status = true := by
  unfold yami_enc_frame at h
  dsimp only at h
  split at h
  · simp only [Option.some.injEq] at h
    subst h
    exact Or.inl rfl
  · repeat' split at h
    all_goals simp_all [Session.log]
    all_goals (subst h; simp_all)
  · next fr _ =>
    have hs := enc_status_switch_edge s.status fr s.in_queue.isEmpty
    split at h
    all_goals simp only [Session.log, Option.some.injEq] at h
    all_goals (subst h; exact hs)
  · repeat' split at h
    all_goals simp_all [Session.log]
    all_goals (subst h; simp_all)
  · cases h

/-- The status changes of a block of `yami_dec_close`: the wait loop stores
`GOT_EOS` over any status but `EXIT`. -/
theorem yami_dec_close_status (s t : DecSession) (h : yami_dec_close s = some t) :
    t.status = s.status ∨
      (s.caller = .closeWait ∧ t.status = .GOT_EOS ∧
        (s.status = .RUNING ∨ s.status = .NOT_INIT)) := by
  unfold yami_dec_close at h
  dsimp only at h
  repeat' split at h
  all_goals simp_all [Session.log]
  all_goals (try subst h)
  all_goals (try simp_all)
  all_goals (cases hst : s.status <;> simp_all)

/-- The status changes of a block of `yami_enc_close`: the wait loop stores
`GOT_EOS` over `RUNING` only. -/
theorem yami_enc_close_status (s t : EncSession) (h : yami_enc_close s = some t) :
    t.status = s.status ∨
      (s.caller = .closeWait ∧ t.status = .GOT_EOS ∧ s.status = .RUNING) := by
  unfold yami_enc_close at h
  dsimp only at h
  repeat' split at h
  all_goals simp_all [Session.log]
  all_goals (subst h; simp_all)

/-- C5 as amended: in every state, a step either leaves the status alone or
changes it as follows.  A block of `yami_dec_frame` / `yami_enc_frame` follows
an edge of the graph; a worker block stores `EXIT`; the wait loop of
`yami_dec_close` stores `GOT_EOS` over `RUNING` or `NOT_INIT`, that of
`yami_enc_close` over `RUNING` only; entering a call or close changes nothing. -/
theorem status_changes_amended
    (sd td : DecSession) (ad : Action AVPacket)
    (se te : EncSession) (ae : Action (Option AVFrame))
    (hd : dec_step sd ad = some td) (he : enc_step se ae = some te) :
    (td.status = sd.status ∨
      match ad with
      | .worker _ _ => td.status = .EXIT
      | .caller _ =>
        if sd.caller = .closeWait then
          td.status = .GOT_EOS ∧ (sd.status = .RUNING ∨ sd.status = .NOT_INIT)
        else status_edge sd.status td.status = true
      | _ => False) ∧
    (te.status = se.status ∨
      match ae with
      | .worker _ _ => te.status = .EXIT
      | .caller _ =>
        if se.caller = .closeWait then te.status = .GOT_EOS ∧ se.status = .RUNING
        else status_edge se.status te.status = true
      | _ => False) := by
  constructor
  · cases ad with
    | call pkt =>
      simp only [dec_step] at hd
      repeat' split at hd
      all_goals simp_all [Session.log]
      all_goals (subst hd; simp_all)
    | close =>
      simp only [dec_step] at hd
      repeat' split at hd
      all_goals simp_all
      all_goals (subst hd; simp_all)
    | caller out =>
      simp only [dec_step] at hd
      split at hd
      · next hc =>
        rcases yami_dec_close_status sd td hd with h | ⟨_, h2, h3⟩
        · exact Or.inl h
        · exact Or.inr (by simp [hc, h2, h3])
      · next hc =>
        rcases yami_dec_close_status sd td hd with h | ⟨h1, _, _⟩
        · exact Or.inl h
        · simp [hc] at h1
      · next hc1 hc2 =>
        rcases yami_dec_frame_status sd td out hd with h | h
        · exact Or.inl h
        · refine Or.inr ?_
          simp only [h, ite_prop_iff_or]
          exact Or.inr ⟨fun hc => hc1 hc, trivial⟩
    | worker w r =>
      rcases decodeThread_status sd td w r hd with h | ⟨h, _⟩
      · exact Or.inl h
      · exact Or.inr h
  · cases ae with
    | call pkt =>
      simp only [enc_step] at he
      repeat' split at he
      all_goals simp_all [Session.log]
      all_goals (subst he; simp_all)
    | close =>
      simp only [enc_step] at he
      repeat' split at he
      all_goals simp_all
      all_goals (subst he; simp_all)
    | caller out =>
      simp only [enc_step] at he
      split at he
      · next hc =>
        rcases yami_enc_close_status se te he with h | ⟨_, h2, h3⟩
        · exact Or.inl h
        · exact Or.inr (by simp [hc, h2, h3])
      · next hc =>
        rcases yami_enc_close_status se te he with h | ⟨h1, _, _⟩
        · exact Or.inl h
        · simp [hc] at h1
      · next hc1 hc2 =>
        rcases yami_enc_frame_status se te out he with h | h
        · exact Or.inl h
        · refine Or.inr ?_
          simp only [h, ite_prop_iff_or]
          exact Or.inr ⟨fun hc => hc1 hc, trivial⟩
    | worker w r =>
      rcases encodeThread_status se te w r he with h | ⟨h, _⟩
      · exact Or.inl h
      · exact Or.inr h

/-- C5 as amended, at the first pass of the wait loop of `yami_dec_close` on a
fresh session and at the status switch of the first frame of an encode
session. -/
theorem status_changes_amended_witness :
    dec_step { dec_open with caller := .closeWait } (.caller .NotReady) =
      some { dec_open with caller := .closeWait, status := .GOT_EOS } ∧
    enc_step { enc_open with caller := .statusUpdate (some (frame 1)) } (.caller .NotReady) =
      some { enc_open with caller := .getOutput (some (frame 1)), status := .RUNING,
                           workers := [.loopTop], trace := [.spawn 0] } ∧
    ((ThreadStatus.GOT_EOS = ThreadStatus.NOT_INIT ∨
        (ThreadStatus.GOT_EOS = ThreadStatus.GOT_EOS ∧
          (ThreadStatus.NOT_INIT = ThreadStatus.RUNING ∨
            ThreadStatus.NOT_INIT = ThreadStatus.NOT_INIT))) ∧
      (ThreadStatus.RUNING = ThreadStatus.NOT_INIT ∨
        status_edge .NOT_INIT .RUNING = true)) :=
  ⟨rfl, rfl, by
    simpa [dec_open, enc_open] using
      status_changes_amended { dec_open with caller := .closeWait }
        { dec_open with caller := .closeWait, status := .GOT_EOS } (.caller .NotReady)
        { enc_open with caller := .statusUpdate (some (frame 1)) }
        { enc_open with caller := .getOutput (some (frame 1)), status := .RUNING,
                        workers := [.loopTop], trace := [.spawn 0] }
        (.caller .NotReady) rfl rfl⟩

/-! ### C6: the caller-side status update -/

/-- The status `switch` of `yami_dec_frame` is the update of the specification. -/
theorem dec_status_switch_eq_spec (st : ThreadStatus) (pkt : AVPacket) (q : Bool) :
    dec_status_switch st pkt q = status_update_spec st pkt.is_end q := by
  cases st <;> cases hd : pkt.data <;> cases hz : (pkt.size == 0) <;> cases q <;>
    simp only [dec_status_switch, status_update_spec, AVPacket.is_end, bne, hd, hz] <;> rfl

/-- The status `switch` of `yami_enc_frame` is the update of the specification. -/
theorem enc_status_switch_eq_spec (st : ThreadStatus) (fr : Option AVFrame) (q : Bool) :
    enc_status_switch st fr q = status_update_spec st fr.isNone q := by
  cases st <;> cases fr <;> cases q <;> simp [enc_status_switch, status_update_spec]

/-- C6: the status switches of `yami_dec_frame` and `yami_enc_frame` are one
and the same function of (status, is-end-marker, queue-empty), namely
`status_update_spec`: from `NOT_INIT` or `EXIT` a unit with payload gives
`RUNING` and starts a worker while an end marker changes and starts nothing;
from `RUNING` an end marker gives `GOT_EOS` and a unit with payload changes
nothing; from `GOT_EOS` the status becomes `NOT_INIT` exactly when the queue
is empty.  The block of either call that runs the switch stores that status,
reads the emptiness of the queue at that moment, appends exactly one thread
at the head of its loop when a worker is started and none otherwise, and
leaves the queue alone. -/
theorem caller_status_update (st : ThreadStatus) (pkt : AVPacket) (fr : Option AVFrame)
    (q : Bool) (sd : DecSession) (se : EncSession) (out : FetchResult) :
    dec_status_switch st pkt q = status_update_spec st pkt.is_end q ∧
    enc_status_switch st fr q = status_update_spec st fr.isNone q ∧
    ((yami_dec_frame { sd with caller := .statusUpdate pkt } out).map fun t =>
        (t.status, t.workers, t.in_queue, t.caller)) =
      some ((status_update_spec sd.status pkt.is_end sd.in_queue.isEmpty).1,
        sd.workers ++
          (if (status_update_spec sd.status pkt.is_end sd.in_queue.isEmpty).2
            then [WorkerPc.loopTop] else []),
        sd.in_queue, .getOutput pkt) ∧
    ((yami_enc_frame { se with caller := .statusUpdate fr } out).map fun t =>
        (t.status, t.workers, t.in_queue, t.caller)) =
      some ((status_update_spec se.status fr.isNone se.in_queue.isEmpty).1,
        se.workers ++
          (if (status_update_spec se.status fr.isNone se.in_queue.isEmpty).2
            then [WorkerPc.loopTop] else []),
        se.in_queue, .getOutput fr) ∧
    (∀ b : Bool, status_update_spec .NOT_INIT false b = (.RUNING, true) ∧
      status_update_spec .EXIT false b = (.RUNING, true) ∧
      status_update_spec .NOT_INIT true b = (.NOT_INIT, false) ∧
      status_update_spec .EXIT true b = (.EXIT, false) ∧
      status_update_spec .RUNING true b = (.GOT_EOS, false) ∧
      status_update_spec .RUNING false b = (.RUNING, false) ∧
      (status_update_spec .GOT_EOS true b).2 = false ∧
      (status_update_spec .GOT_EOS false b).2 = false ∧
      ((status_update_spec .GOT_EOS true b).1 = .NOT_INIT ↔ b = true) ∧
      ((status_update_spec .GOT_EOS false b).1 = .NOT_INIT ↔ b = true)) := by
  refine ⟨dec_status_switch_eq_spec st pkt q, enc_status_switch_eq_spec st fr q, ?_, ?_, ?_⟩
  · simp only [yami_dec_frame, dec_status_switch_eq_spec]
    split <;> simp_all [Session.log]
  · simp only [yami_enc_frame, enc_status_switch_eq_spec]
    split <;> simp_all [Session.log]
  · intro b
    cases b <;> simp [status_update_spec]

/-! ### C7: when the worker stores `EXIT` -/

/-- A block of `decodeThread` that brings worker `w` to the store of `EXIT` is
the loop-head block, run on an empty queue in status `GOT_EOS`. -/
theorem decodeThread_leave (s t : DecSession) (w : Nat) (r : SubmitResult)
    (h : decodeThread s w r = some t) (ht : t.workers[w]? = some .setExit) :
    s.workers[w]? = some .loopTop ∧ s.in_queue = [] ∧ s.status = .GOT_EOS ∧
      t = (s.setWorker w .setExit).log (.leave w) := by
  unfold decodeThread at h
  split at h
  · cases h
  all_goals
    next hw =>
    have hlt : w < s.workers.length := by
      rcases List.getElem?_eq_some.mp hw with ⟨hlt, _⟩
      exact hlt
    repeat' split at h
    all_goals (try simp only [Option.some.injEq, reduceCtorEq] at h)
    all_goals (try subst h)
    all_goals simp_all [Session.setWorker, Session.log, List.getElem?_set]

/-- A block of `decodeThread` run by worker `v` leaves the other workers alone. -/
theorem decodeThread_other (s t : DecSession) (w v : Nat) (r : SubmitResult)
    (h : decodeThread s v r = some t) (hne : v ≠ w) : t.workers[w]? = s.workers[w]? := by
  unfold decodeThread at h
  repeat' split at h
  all_goals (try simp only [Option.some.injEq, reduceCtorEq] at h)
  all_goals (try subst h)
  all_goals simp_all [Session.setWorker, Session.log, List.getElem?_set_ne hne]

/-- The block of `decodeThread` after the loop stores `EXIT` and returns. -/
theorem decodeThread_return (s t : DecSession) (w : Nat) (r : SubmitResult)
    (h : decodeThread s w r = some t) (hs : s.workers[w]? = some .setExit) :
    t.workers[w]? = some .returned ∧ t.status = .EXIT := by
  have hlt : w < s.workers.length := by
    rcases List.getElem?_eq_some.mp hs with ⟨hlt, _⟩
    exact hlt
  unfold decodeThread at h
  rw [hs] at h
  simp only [Option.some.injEq] at h
  subst h
  simp [Session.setWorker, Session.log, List.getElem?_set, hlt]

/-- Only a block of worker `w` itself brings it to the store of `EXIT`. -/
theorem dec_step_setExit_frame (w : Nat) (s : DecSession) (a : Action AVPacket)
    (t : DecSession) (h : dec_step s a = some t) (hm : ¬ ∃ r, a = .worker w r)
    (ht : t.workers[w]? = some .setExit) : s.workers[w]? = some .setExit := by
  cases a with
  | call pkt =>
    simp only [dec_step] at h
    repeat' split at h
    all_goals (try simp only [Option.some.injEq, reduceCtorEq] at h)
    all_goals (try subst h)
    all_goals simp_all [Session.log]
  | close =>
    simp only [dec_step] at h
    repeat' split at h
    all_goals (try simp only [Option.some.injEq, reduceCtorEq] at h)
    all_goals (try subst h)
    all_goals simp_all
  | caller out =>
    simp only [dec_step] at h
    split at h
    · rw [yami_dec_close_workers s t h] at ht; exact ht
    · rw [yami_dec_close_workers s t h] at ht; exact ht
    · rcases yami_dec_frame_workers s t out h with hw | hw
      · rw [hw] at ht; exact ht
      · rw [hw] at ht
        exact getElem?_append_loopTop s.workers w .setExit (by simp) ht
  | worker v r =>
    have hne : v ≠ w := fun hv => hm ⟨r, by rw [hv]⟩
    rw [decodeThread_other s t w v r h hne] at ht
    exact ht

/-- A block of `encodeThread` that brings worker `w` to the store of `EXIT` is
the loop-head block, run on an empty queue in status `GOT_EOS`. -/
theorem encodeThread_leave (s t : EncSession) (w : Nat) (r : SubmitResult)
    (h : encodeThread s w r = some t) (ht : t.workers[w]? = some .setExit) :
    s.workers[w]? = some .loopTop ∧ s.in_queue = [] ∧ s.status = .GOT_EOS ∧
      t = (s.setWorker w .setExit).log (.leave w) := by
  unfold encodeThread at h
  split at h
  · cases h
  all_goals
    next hw =>
    have hlt : w < s.workers.length := by
      rcases List.getElem?_eq_some.mp hw with ⟨hlt, _⟩
      exact hlt
    repeat' split at h
    all_goals (try simp only [Option.some.injEq, reduceCtorEq] at h)
    all_goals (try subst h)
    all_goals simp_all [Session.setWorker, Session.log, List.getElem?_set]

/-- A block of `encodeThread` run by worker `v` leaves the other workers alone. -/
theorem encodeThread_other (s t : EncSession) (w v : Nat) (r : SubmitResult)
    (h : encodeThread s v r = some t) (hne : v ≠ w) : t.workers[w]? = s.workers[w]? := by
  unfold encodeThread at h
  repeat' split at h
  all_goals (try simp only [Option.some.injEq, reduceCtorEq] at h)
  all_goals (try subst h)
  all_goals simp_all [Session.setWorker, Session.log, List.getElem?_set_ne hne]

/-- The block of `encodeThread` after the loop stores `EXIT` and returns. -/
theorem encodeThread_return (s t : EncSession) (w : Nat) (r : SubmitResult)
    (h : encodeThread s w r = some t) (hs : s.workers[w]? = some .setExit) :
    t.workers[w]? = some .returned ∧ t.status = .EXIT := by
  have hlt : w < s.workers.length := by
    rcases List.getElem?_eq_some.mp hs with ⟨hlt, _⟩
    exact hlt
  unfold encodeThread at h
  rw [hs] at h
  simp only [Option.some.injEq] at h
  subst h
  simp [Session.setWorker, Session.log, List.getElem?_set, hlt]

/-- Only a block of worker `w` itself brings it to the store of `EXIT`. -/
theorem enc_step_setExit_frame (w : Nat) (s : EncSession) (a : Action (Option AVFrame))
    (t : EncSession) (h : enc_step s a = some t) (hm : ¬ ∃ r, a = .worker w r)
    (ht : t.workers[w]? = some .setExit) : s.workers[w]? = some .setExit := by
  cases a with
  | call pkt =>
    simp only [enc_step] at h
    repeat' split at h
    all_goals (try simp only [Option.some.injEq, reduceCtorEq] at h)
    all_goals (try subst h)
    all_goals simp_all [Session.log]
  | close =>
    simp only [enc_step] at h
    repeat' split at h
    all_goals (try simp only [Option.some.injEq, reduceCtorEq] at h)
    all_goals (try subst h)
    all_goals simp_all
  | caller out =>
    simp only [enc_step] at h
    split at h
    · rw [yami_enc_close_workers s t h] at ht; exact ht
    · rw [yami_enc_close_workers s t h] at ht; exact ht
    · rcases yami_enc_frame_workers s t out h with hw | hw
      · rw [hw] at ht; exact ht
      · rw [hw] at ht
        exact getElem?_append_loopTop s.workers w .setExit (by simp) ht
  | worker v r =>
    have hne : v ≠ w := fun hv => hm ⟨r, by rw [hv]⟩
    rw [encodeThread_other s t w v r h hne] at ht
    exact ht

/-- The loop iteration before the store of `EXIT`: a worker block changes the
status only at the statement after the loop, and only to `EXIT`.  Whenever, in
a run from session open, a worker is at that statement, the schedule so far
splits at an earlier block of that same worker, run at the head of its loop
(not in `pthread_cond_wait`) on an empty queue in status `GOT_EOS`, which took
it out of the loop with the queue still empty, and the worker has run no block
since: it did not wait in that iteration, and it did not leave the loop while a
unit was queued. -/
theorem worker_exit_only_after_drain
    (da : List (Action AVPacket)) (sd td : DecSession) (wd : Nat) (rd : SubmitResult)
    (ea : List (Action (Option AVFrame))) (se te : EncSession) (we : Nat)
    (re : SubmitResult)
    (hd : run dec_step dec_open da = some sd) (hdt : decodeThread sd wd rd = some td)
    (hdx : td.status ≠ sd.status ∨ sd.workers[wd]? = some .setExit)
    (he : run enc_step enc_open ea = some se) (het : encodeThread se we re = some te)
    (hex : te.status ≠ se.status ∨ se.workers[we]? = some .setExit) :
    (sd.workers[wd]? = some .setExit ∧ td.status = .EXIT ∧
      td.workers[wd]? = some .returned ∧
      ∃ pre r0 post sm, da = pre ++ .worker wd r0 :: post ∧
        run dec_step dec_open pre = some sm ∧
        sm.workers[wd]? = some .loopTop ∧ sm.in_queue = [] ∧ sm.status = .GOT_EOS ∧
        decodeThread sm wd r0 = some ((sm.setWorker wd .setExit).log (.leave wd)) ∧
        ((sm.setWorker wd .setExit).log (.leave wd)).in_queue = [] ∧
        ∀ a ∈ post, ∀ r, a ≠ .worker wd r) ∧
    (se.workers[we]? = some .setExit ∧ te.status = .EXIT ∧
      te.workers[we]? = some .returned ∧
      ∃ pre r0 post sm, ea = pre ++ .worker we r0 :: post ∧
        run enc_step enc_open pre = some sm ∧
        sm.workers[we]? = some .loopTop ∧ sm.in_queue = [] ∧ sm.status = .GOT_EOS ∧
        encodeThread sm we r0 = some ((sm.setWorker we .setExit).log (.leave we)) ∧
        ((sm.setWorker we .setExit).log (.leave we)).in_queue = [] ∧
        ∀ a ∈ post, ∀ r, a ≠ .worker we r) := by
  constructor
  · have hpc : sd.workers[wd]? = some .setExit := by
      rcases hdx with hne | hpc
      · rcases decodeThread_status sd td wd rd hdt with h | ⟨_, h⟩
        · exact absurd h hne
        · exact h
      · exact hpc
    obtain ⟨hret, hst⟩ := decodeThread_return sd td wd rd hdt hpc
    refine ⟨hpc, hst, hret, ?_⟩
    obtain ⟨pre, a, post, sm, sm', hsplit, ⟨r0, ha⟩, hpre, hstep, _, hin, hpost⟩ :=
      run_last_entry dec_step (fun s => s.workers[wd]? = some .setExit)
        (fun a => ∃ r, a = .worker wd r)
        (dec_step_setExit_frame wd)
        (fun s a t h hm hs => by
          obtain ⟨r, rfl⟩ := hm
          have := (decodeThread_return s t wd r h hs).1
          simp [this])
        da dec_open sd hd hpc (by simp [dec_open])
    subst ha
    obtain ⟨h1, h2, h3, h4⟩ := decodeThread_leave sm sm' wd r0 hstep hin
    refine ⟨pre, r0, post, sm, hsplit, hpre, h1, h2, h3, ?_, ?_, ?_⟩
    · rw [← h4]; exact hstep
    · simpa [Session.setWorker, Session.log] using h2
    · intro a ha r hr
      exact hpost a ha ⟨r, hr⟩
  · have hpc : se.workers[we]? = some .setExit := by
      rcases hex with hne | hpc
      · rcases encodeThread_status se te we re het with h | ⟨_, h⟩
        · exact absurd h hne
        · exact h
      · exact hpc
    obtain ⟨hret, hst⟩ := encodeThread_return se te we re het hpc
    refine ⟨hpc, hst, hret, ?_⟩
    obtain ⟨pre, a, post, sm, sm', hsplit, ⟨r0, ha⟩, hpre, hstep, _, hin, hpost⟩ :=
      run_last_entry enc_step (fun s => s.workers[we]? = some .setExit)
        (fun a => ∃ r, a = .worker we r)
        (enc_step_setExit_frame we)
        (fun s a t h hm hs => by
          obtain ⟨r, rfl⟩ := hm
          have := (encodeThread_return s t we r h hs).1
          simp [this])
        ea enc_open se he hpc (by simp [enc_open])
    subst ha
    obtain ⟨h1, h2, h3, h4⟩ := encodeThread_leave sm sm' we r0 hstep hin
    refine ⟨pre, r0, post, sm, hsplit, hpre, h1, h2, h3, ?_, ?_, ?_⟩
    · rw [← h4]; exact hstep
    · simpa [Session.setWorker, Session.log] using h2
    · intro a ha r hr
      exact hpost a ha ⟨r, hr⟩

/-- The schedules `dec_leaving` and `enc_leaving`, in which worker 0 has
just left its loop: the hypotheses hold there, and the next block of the worker
stores `EXIT`. -/
theorem worker_exit_only_after_drain_witness :
    run dec_step dec_open dec_leaving = some (after dec_step dec_open dec_leaving) ∧
    decodeThread (after dec_step dec_open dec_leaving) 0 .Accepted =
      some (after dec_step dec_open dec_exited) ∧
    (after dec_step dec_open dec_leaving).workers[0]? = some .setExit ∧
    run enc_step enc_open enc_leaving = some (after enc_step enc_open enc_leaving) ∧
    encodeThread (after enc_step enc_open enc_leaving) 0 .Accepted =
      some (after enc_step enc_open enc_exited) ∧
    (after enc_step enc_open enc_leaving).workers[0]? = some .setExit ∧
    (after dec_step dec_open dec_exited).status = .EXIT ∧
    (after enc_step enc_open enc_exited).status = .EXIT :=
  have h := worker_exit_only_after_drain dec_leaving (after dec_step dec_open dec_leaving)
    (after dec_step dec_open dec_exited) 0 .Accepted
    enc_leaving (after enc_step enc_open enc_leaving)
    (after enc_step enc_open enc_exited) 0 .Accepted
    rfl rfl (Or.inr rfl) rfl rfl (Or.inr rfl)
  ⟨rfl, rfl, rfl, rfl, rfl, rfl, h.1.2.1, h.2.2.1⟩

/-- C7, evaluated at the schedules `dec_late_exit` and `enc_late_exit`: worker 0
has left its loop on an empty queue in status `GOT_EOS` and has not yet stored
`EXIT`; the caller resets the status and queues a unit; worker 0 then stores
`EXIT` and returns while that unit is in the queue.  On the decode path no
worker is left alive. -/
theorem worker_exits_with_unit_queued :
    ((run dec_step dec_open dec_leaving).map fun t => (t.status, t.in_queue, t.workers)) =
      some (.GOT_EOS, [], [.setExit]) ∧
    ((run dec_step dec_open dec_late_push).map fun t =>
        (t.status, t.in_queue, t.workers)) =
      some (.NOT_INIT, [in_buffer end_marker], [.setExit]) ∧
    ((run dec_step dec_open dec_late_exit).map fun t =>
        (t.status, t.in_queue, t.workers, t.liveWorkers)) =
      some (.EXIT, [in_buffer end_marker], [.returned], 0) ∧
    ((run enc_step enc_open enc_leaving).map fun t => (t.status, t.in_queue, t.workers)) =
      some (.GOT_EOS, [], [.setExit]) ∧
    ((run enc_step enc_open enc_late_push).map fun t =>
        (t.status, t.in_queue, t.workers)) =
      some (.RUNING, [frame 2], [.setExit, .loopTop]) ∧
    ((run enc_step enc_open enc_late_exit).map fun t =>
        (t.status, t.in_queue, t.workers)) =
      some (.EXIT, [frame 2], [.returned, .loopTop]) :=
  ⟨rfl, rfl, rfl, rfl, rfl, rfl⟩

/-! ### C8: teardown and the live worker -/

/-- The wait loop of `yami_dec_close` is left only in status `EXIT`; a pass
made in another status releases nothing. -/
theorem yami_dec_close_waits (s t : DecSession) (h : yami_dec_close s = some t)
    (hc : s.caller = .closeWait) :
    (t.caller = .closeRelease → s.status = .EXIT) ∧
      t.engine = s.engine ∧ t.queue_deleted = s.queue_deleted ∧
      t.in_queue = s.in_queue ∧ t.trace = s.trace := by
  unfold yami_dec_close at h
  rw [hc] at h
  dsimp only at h
  split at h
  all_goals simp only [Option.some.injEq] at h
  all_goals (subst h; simp_all)

/-- Encode, in every state at the head of the wait loop of `yami_enc_close`
with a status other than `RUNING`: the loop ends at once and the next block
releases the engine and deletes the queue, whatever the worker threads do. -/
theorem yami_enc_close_does_not_wait (s : EncSession) (out1 out2 : FetchResult)
    (hc : s.caller = .closeWait) (hst : s.status ≠ .RUNING) :
    ((run enc_step s [.caller out1, .caller out2]).map fun t =>
        (t.status, t.workers, t.engine, t.queue_deleted, t.caller)) =
      some (s.status, s.workers, false, true, .closed) := by
  cases he : s.engine <;>
    simp [run, enc_step, yami_enc_close, hc, hst, he, Session.log]

/-- C8, evaluated at the schedule `enc_close_early`: `yami_enc_close` is
called in status `RUNING` with worker 0 alive; its loop stores `GOT_EOS`,
finds the status different from `RUNING` on the next pass and ends; the engine
is released and the queue deleted (one unit still in it) while the status is
`GOT_EOS`, not `EXIT`, and worker 0 is still alive at the head of its loop. -/
theorem enc_close_releases_while_worker_alive :
    ((run enc_step enc_open (enc_call 1)).map fun s =>
        (s.status, s.workers, s.liveWorkers, s.engine, s.queue_deleted)) =
      some (.RUNING, [.loopTop], 1, true, false) ∧
    ((run enc_step enc_open enc_close_early).map fun s =>
        (s.status, s.workers, s.liveWorkers, s.engine, s.queue_deleted, s.caller,
          s.trace)) =
      some (.GOT_EOS, [.loopTop], 1, false, true, .closed,
        [.push (frame 1), .spawn 0, .fetch .NotReady, .ret 0 none, .release,
          .deleteQueue 1]) :=
  ⟨rfl, rfl⟩

/-! ### C9: teardown without a worker -/

/-- Decode, in every state at the head of the wait loop of `yami_dec_close`
with status `EXIT`: the loop ends at once and the next block releases the
engine and deletes the queue. -/
theorem yami_dec_close_returns_in_exit (s : DecSession) (out1 out2 : FetchResult)
    (hc : s.caller = .closeWait) (hst : s.status = .EXIT) :
    ((run dec_step s [.caller out1, .caller out2]).map fun t =>
        (t.status, t.workers, t.engine, t.queue_deleted, t.caller)) =
      some (.EXIT, s.workers, false, true, .closed) := by
  cases he : s.engine <;>
    simp [run, dec_step, yami_dec_close, hc, hst, he, Session.log]

/-- With no worker, the wait loop of `yami_dec_close` is a fixed point: the
only enabled action is another pass, which changes nothing. -/
theorem dec_closing_fixed (a : Action AVPacket) (t : DecSession)
    (h : dec_step dec_closing a = some t) : t = dec_closing := by
  cases a with
  | call pkt => simp [dec_step, dec_closing, dec_open] at h
  | close => simp [dec_step, dec_closing, dec_open] at h
  | caller out =>
    simp [dec_step, dec_closing, dec_open, yami_dec_close] at h
    rw [← h]; rfl
  | worker w r => simp [dec_step, dec_closing, dec_open, decodeThread] at h

/-- Any number of passes of the wait loop is enabled in `dec_closing`. -/
theorem dec_closing_polls (n : Nat) :
    run dec_step dec_closing (List.replicate n (.caller .NotReady)) = some dec_closing := by
  induction n with
  | zero => rfl
  | succ k ih =>
    simp only [List.replicate_succ, run]
    have h : dec_step dec_closing (.caller .NotReady) = some dec_closing := rfl
    rw [h]
    exact ih

/-- C9, evaluated on a freshly opened decode session that is closed: whatever
is scheduled after the entry of `yami_dec_close` and its first pass, the caller
is still in the wait loop with status `GOT_EOS`, nothing is released, and `n`
further passes are enabled and end in the same state; the loop has no exit.
The same schedule on an encode session returns after one pass. -/
theorem dec_close_never_returns_without_worker
    (acts : List (Action AVPacket)) (s : DecSession) (n : Nat)
    (h : run dec_step dec_open (.close :: .caller .NotReady :: acts) = some s) :
    s = dec_closing ∧ s.caller = .closeWait ∧ s.engine = true ∧
      s.queue_deleted = false ∧ s.liveWorkers = 0 ∧
      run dec_step s (List.replicate n (.caller .NotReady)) = some dec_closing ∧
      ((run enc_step enc_open [.close, .caller .NotReady, .caller .NotReady]).map
        fun e => e.caller) = some .closed := by
  have h0 : run dec_step dec_open (.close :: .caller .NotReady :: acts) =
      run dec_step dec_closing acts := rfl
  rw [h0] at h
  have hs : s = dec_closing :=
    run_invariant dec_step (fun u => u = dec_closing)
      (fun u a t hu hstep => by subst hu; exact dec_closing_fixed a t hstep)
      acts dec_closing s rfl h
  subst hs
  exact ⟨rfl, rfl, rfl, rfl, rfl, dec_closing_polls n, rfl⟩

/-- C9 at an explicit schedule: five passes after close, then three more. -/
theorem dec_close_never_returns_without_worker_witness :
    run dec_step dec_open
        (.close :: .caller .NotReady :: List.replicate 4 (.caller .NotReady)) =
      some dec_closing ∧
    dec_closing.caller = .closeWait ∧
    run dec_step dec_closing (List.replicate 3 (.caller .NotReady)) = some dec_closing :=
  have h := dec_close_never_returns_without_worker
    (List.replicate 4 (.caller .NotReady)) dec_closing 3 rfl
  ⟨rfl, h.2.1, h.2.2.2.2.2.1⟩

/-! ### C10: the format change -/

/-- Every engine call a block of `decodeThread` makes is on the unit the worker
holds, at one of the two call sites. -/
theorem decodeThread_calls_on_held_unit (s t : DecSession) (w : Nat) (r : SubmitResult)
    (h : decodeThread s w r = some t) (v : Nat) (b : VideoDecodeBuffer) (again : Bool)
    (he : Event.submit v b again ∈ t.trace) (hn : Event.submit v b again ∉ s.trace) :
    v = w ∧ ((again = false ∧ s.workers[w]? = some (.submit b)) ∨
      (again = true ∧ s.workers[w]? = some (.resubmit b))) := by
  unfold decodeThread at h
  repeat' split at h
  all_goals (try simp only [Option.some.injEq, reduceCtorEq] at h)
  all_goals (try subst h)
  all_goals simp_all [Session.setWorker, Session.log]

/-- One worker iteration, blocks run back to back: from the moment worker `w`
of a decode session holds the unit `b` it took from the front of the queue, a
first result other than FormatChanged takes it to `pop_front()` after that
single engine call; the result FormatChanged takes it to one more engine call
on the same `b`, and whatever that second call returns (`r2`, FormatChanged
included) the worker then goes to `pop_front()`: two calls, both on `b`, none
on another unit.  The block at `pop_front()` makes no engine call, removes the
front unit and returns to the head of the loop, where the next unit is
taken. -/
theorem format_change_resubmits_once
    (s u : DecSession) (w : Nat) (b x : VideoDecodeBuffer)
    (rest : List VideoDecodeBuffer) (r1 r2 r3 : SubmitResult)
    (hpc : s.workers[w]? = some (.submit b)) (heng : s.engine = true)
    (hr1 : r1 ≠ .FormatChanged)
    (hu : u.workers[w]? = some (.popFront b)) (huq : u.in_queue = x :: rest)
    (hud : u.queue_deleted = false) :
    ((run dec_step s [.worker w r1]).map fun t =>
        (t.workers[w]?, t.trace, t.in_queue)) =
      some (some (.popFront b), s.trace ++ [.submit w b false], s.in_queue) ∧
    ((run dec_step s [.worker w .FormatChanged]).map fun t =>
        (t.workers[w]?, t.trace, t.in_queue, t.format_info)) =
      some (some (.resubmit b), s.trace ++ [.submit w b false], s.in_queue, true) ∧
    ((run dec_step s [.worker w .FormatChanged, .worker w r2]).map fun t =>
        (t.workers[w]?, t.trace, t.in_queue)) =
      some (some (.popFront b), s.trace ++ [.submit w b false, .submit w b true],
        s.in_queue) ∧
    ((run dec_step u [.worker w r3]).map fun t =>
        (t.workers[w]?, t.trace, t.in_queue)) =
      some (some .loopTop, u.trace ++ [.pop w b x], rest) := by
  have hlt : w < s.workers.length := by
    rcases List.getElem?_eq_some.mp hpc with ⟨hlt, _⟩
    exact hlt
  have hlu : w < u.workers.length := by
    rcases List.getElem?_eq_some.mp hu with ⟨hlt, _⟩
    exact hlt
  refine ⟨?_, ?_, ?_, ?_⟩
  · simp [run, dec_step, decodeThread, hpc, heng, hr1, Session.setWorker, Session.log,
      List.getElem?_set, hlt]
  · simp [run, dec_step, decodeThread, hpc, heng, Session.setWorker, Session.log,
      List.getElem?_set, hlt]
  · simp [run, dec_step, decodeThread, hpc, heng, Session.setWorker, Session.log,
      List.getElem?_set, hlt]
  · simp [run, dec_step, decodeThread, hu, huq, hud, Session.setWorker, Session.log,
      List.getElem?_set, hlu]

/-- The schedule `dec_holding` (worker 0 holds packet 1): the engine
answers FormatChanged twice in a row, and the unit is still submitted exactly
twice before `pop_front()`. -/
theorem format_change_resubmits_once_witness :
    (after dec_step dec_open dec_holding).workers[0]? =
      some (.submit (in_buffer (packet 1))) ∧
    (after dec_step dec_open dec_holding).engine = true ∧
    SubmitResult.Accepted ≠ SubmitResult.FormatChanged ∧
    (after dec_step dec_open dec_decoded).workers[0]? =
      some (.popFront (in_buffer (packet 1))) ∧
    (after dec_step dec_open dec_decoded).in_queue =
      [in_buffer (packet 1)] ∧
    (after dec_step dec_open dec_decoded).queue_deleted = false ∧
    ((run dec_step (after dec_step dec_open dec_holding)
        [.worker 0 .FormatChanged, .worker 0 .FormatChanged]).map fun t =>
        (t.workers[0]?, t.trace, t.in_queue)) =
      some (some (.popFront (in_buffer (packet 1))),
        (after dec_step dec_open dec_holding).trace ++
          [.submit 0 (in_buffer (packet 1)) false, .submit 0 (in_buffer (packet 1)) true],
        (after dec_step dec_open dec_holding).in_queue) :=
  have h := format_change_resubmits_once (after dec_step dec_open dec_holding)
    (after dec_step dec_open dec_decoded) 0
    (in_buffer (packet 1)) (in_buffer (packet 1)) [] .Accepted .FormatChanged .Accepted
    rfl rfl (by decide) rfl rfl rfl
  ⟨rfl, rfl, by decide, rfl, rfl, rfl, h.2.2.1⟩

/-- C10, evaluated at the schedules `dec_double` and `dec_double_changed` (two
workers alive after a restart): packet 2, queued once, is passed to `decode`
by both workers, twice in all although no call reports a format change, and
four times when the engine reports a format change to both; packet 3, queued
once and removed from the queue, is never passed to `decode`. -/
theorem unit_decoded_by_two_workers :
    ((run dec_step dec_open dec_double).map fun t =>
        ((pushes t.trace).count (in_buffer (packet 2)),
          (submissions t.trace).filter fun e => decide (e.2.1 = in_buffer (packet 2)))) =
      some (1, [(0, in_buffer (packet 2), false), (1, in_buffer (packet 2), false)]) ∧
    ((run dec_step dec_open dec_double_changed).map fun t =>
        ((pushes t.trace).count (in_buffer (packet 2)),
          (submissions t.trace).filter fun e => decide (e.2.1 = in_buffer (packet 2)))) =
      some (1, [(0, in_buffer (packet 2), false), (0, in_buffer (packet 2), true),
        (1, in_buffer (packet 2), false), (1, in_buffer (packet 2), true)]) ∧
    ((run dec_step dec_open dec_double).map fun t =>
        ((pushes t.trace).count (in_buffer (packet 3)),
          (removed t.trace).count (in_buffer (packet 3)),
          (submissions t.trace).filter fun e => decide (e.2.1 = in_buffer (packet 3)))) =
      some (1, 1, []) :=
  ⟨rfl, rfl, rfl⟩

/-! ### C11: a failed unit does not stop the worker -/

/-- While `encoder->encode` returns `ENCODE_IS_BUSY` the worker stays at the
call with the same frame; status, queue and pops stay as they are. -/
theorem encodeThread_busy (s : EncSession) (w : Nat) (b : AVFrame) (k : Nat)
    (hpc : s.workers[w]? = some (.resubmit b)) (heng : s.engine = true) :
    ∃ t, run enc_step s (List.replicate k (.worker w .Busy)) = some t ∧
      t.workers[w]? = some (.resubmit b) ∧ t.engine = true ∧ t.status = s.status ∧
      t.in_queue = s.in_queue ∧ t.queue_deleted = s.queue_deleted ∧
      pops t.trace = pops s.trace := by
  induction k generalizing s with
  | zero => exact ⟨s, rfl, hpc, heng, rfl, rfl, rfl, rfl⟩
  | succ k ih =>
    have hlt : w < s.workers.length := by
      rcases List.getElem?_eq_some.mp hpc with ⟨hlt, _⟩
      exact hlt
    have hstep : enc_step s (.worker w .Busy) =
        some ((s.setWorker w (.resubmit b)).log (.submit w b true)) := by
      simp [enc_step, encodeThread, hpc, heng]
    obtain ⟨t, h1, h2, h3, h4, h5, h6, h7⟩ :=
      ih ((s.setWorker w (.resubmit b)).log (.submit w b true))
        (by simp [Session.setWorker, Session.log, List.getElem?_set, hlt])
        (by simp [Session.setWorker, Session.log, heng])
    refine ⟨t, ?_, h2, h3, ?_, ?_, ?_, ?_⟩
    · simp only [List.replicate_succ, run, hstep]
      exact h1
    · rw [h4]; simp [Session.setWorker, Session.log]
    · rw [h5]; simp [Session.setWorker, Session.log]
    · rw [h6]; simp [Session.setWorker, Session.log]
    · rw [h7]; simp [Session.setWorker, Session.log, pops_snoc]

/-- The last engine call of an encode iteration and the pop that follows. -/
theorem encodeThread_finish (s : EncSession) (w : Nat) (b : AVFrame) (rest : List AVFrame)
    (r : SubmitResult) (hr : r ≠ .Busy)
    (hpc : s.workers[w]? = some (.submit b) ∨ s.workers[w]? = some (.resubmit b))
    (hq : s.in_queue = b :: rest) (heng : s.engine = true)
    (hdel : s.queue_deleted = false) :
    ((run enc_step s [.worker w r, .worker w .Accepted]).map fun t =>
        (t.status, t.in_queue, t.workers[w]?, pops t.trace)) =
      some (s.status, rest, some .loopTop, pops s.trace ++ [(w, b, b)]) := by
  have hlt : w < s.workers.length := by
    rcases hpc with hpc | hpc <;>
    · rcases List.getElem?_eq_some.mp hpc with ⟨hlt, _⟩
      exact hlt
  rcases hpc with hpc | hpc <;>
    simp [run, enc_step, encodeThread, hpc, hq, heng, hdel, hr, Session.setWorker,
      Session.log, List.getElem?_set, hlt, pops, List.filterMap_append]

/-- One worker iteration, blocks run back to back from a state in which the
held unit is the front of the queue.  On the decode path, whatever the engine
returns (`r1`, and `r2` for the second call after FormatChanged; success, busy
or any failure code), and on the encode path, after any number `k` of busy
results, whatever the final result `r` is, the iteration ends with the worker
back at the head of its loop, the status unchanged, and exactly one
`pop_front()` with release, of that very unit, which is gone from the front of
the queue. -/
theorem unit_failure_not_fatal
    (sd : DecSession) (wd : Nat) (bd : VideoDecodeBuffer) (restd : List VideoDecodeBuffer)
    (r1 r2 : SubmitResult)
    (se : EncSession) (we : Nat) (be : AVFrame) (reste : List AVFrame) (k : Nat)
    (r : SubmitResult)
    (hd : sd.workers[wd]? = some (.submit bd)) (hdq : sd.in_queue = bd :: restd)
    (hde : sd.engine = true) (hdd : sd.queue_deleted = false)
    (he : se.workers[we]? = some (.submit be)) (heq : se.in_queue = be :: reste)
    (hee : se.engine = true) (hed : se.queue_deleted = false) (hr : r ≠ .Busy) :
    ((run dec_step sd (dec_iteration wd r1 r2)).map fun t =>
        (t.status, t.in_queue, t.workers[wd]?, pops t.trace)) =
      some (sd.status, restd, some .loopTop, pops sd.trace ++ [(wd, bd, bd)]) ∧
    ((run enc_step se (enc_iteration we k r)).map fun t =>
        (t.status, t.in_queue, t.workers[we]?, pops t.trace)) =
      some (se.status, reste, some .loopTop, pops se.trace ++ [(we, be, be)]) := by
  constructor
  · have hlt : wd < sd.workers.length := by
      rcases List.getElem?_eq_some.mp hd with ⟨hlt, _⟩
      exact hlt
    by_cases h1 : r1 = .FormatChanged
    · simp [dec_iteration, h1, run, dec_step, decodeThread, hd, hdq, hde, hdd,
        Session.setWorker, Session.log, List.getElem?_set, hlt, pops, List.filterMap_append]
    · simp [dec_iteration, h1, run, dec_step, decodeThread, hd, hdq, hde, hdd,
        Session.setWorker, Session.log, List.getElem?_set, hlt, pops, List.filterMap_append]
  · have hlt : we < se.workers.length := by
      rcases List.getElem?_eq_some.mp he with ⟨hlt, _⟩
      exact hlt
    cases k with
    | zero =>
      simpa [enc_iteration] using
        encodeThread_finish se we be reste r hr (Or.inl he) heq hee hed
    | succ k =>
      have hstep : enc_step se (.worker we .Busy) =
          some ((se.setWorker we (.resubmit be)).log (.submit we be false)) := by
        simp [enc_step, encodeThread, he, hee]
      obtain ⟨t, h1, h2, h3, h4, h5, h6, h7⟩ :=
        encodeThread_busy ((se.setWorker we (.resubmit be)).log (.submit we be false))
          we be k
          (by simp [Session.setWorker, Session.log, List.getElem?_set, hlt])
          (by simp [Session.setWorker, Session.log, hee])
      have hfin := encodeThread_finish t we be reste r hr (Or.inr h2)
        (by rw [h5]; simpa [Session.setWorker, Session.log] using heq) h3
        (by rw [h6]; simpa [Session.setWorker, Session.log] using hed)
      have hrun : run enc_step se (enc_iteration we (k + 1) r) =
          run enc_step t [.worker we r, .worker we .Accepted] := by
        have hsplit : enc_iteration we (k + 1) r =
            [.worker we .Busy] ++ (List.replicate k (.worker we .Busy) ++
              [.worker we r, .worker we .Accepted]) := by
          simp [enc_iteration, List.replicate_succ]
        rw [hsplit, run_append]
        simp only [run, hstep, Option.some_bind]
        rw [run_append, h1]
        rfl
      rw [hrun, hfin, h4, h7]
      simp [Session.setWorker, Session.log, pops, List.filterMap_append]

/-- The schedules `dec_holding` and `enc_holding`: the decoder fails
with code 3, the encoder is busy twice and then fails with code 5. -/
theorem unit_failure_not_fatal_witness :
    (after dec_step dec_open dec_holding).workers[0]? =
      some (.submit (in_buffer (packet 1))) ∧
    (after dec_step dec_open dec_holding).in_queue = [in_buffer (packet 1)] ∧
    (after enc_step enc_open enc_holding).workers[0]? = some (.submit (frame 1)) ∧
    (after enc_step enc_open enc_holding).in_queue = [frame 1] ∧
    SubmitResult.Failed 5 ≠ SubmitResult.Busy ∧
    ((run dec_step (after dec_step dec_open dec_holding)
        (dec_iteration 0 (.Failed 3) .Accepted)).map fun t =>
        (t.status, t.in_queue, t.workers[0]?, pops t.trace)) =
      some (.RUNING, [], some .loopTop, [(0, in_buffer (packet 1), in_buffer (packet 1))]) ∧
    ((run enc_step (after enc_step enc_open enc_holding)
        (enc_iteration 0 2 (.Failed 5))).map fun t =>
        (t.status, t.in_queue, t.workers[0]?, pops t.trace)) =
      some (.RUNING, [], some .loopTop, [(0, frame 1, frame 1)]) :=
  have h := unit_failure_not_fatal (after dec_step dec_open dec_holding) 0
    (in_buffer (packet 1)) [] (.Failed 3) .Accepted
    (after enc_step enc_open enc_holding) 0 (frame 1) [] 2 (.Failed 5)
    rfl rfl rfl rfl rfl rfl rfl rfl (by decide)
  ⟨rfl, rfl, rfl, rfl, by decide, h.1, h.2⟩

/-- C11, evaluated at the schedules `dec_double` and `enc_double` (two workers
alive after a restart): unit 2, queued once and removed from the queue once,
is freed twice, by worker 0 and again by worker 1, whose `pop_front()` removes
unit 3; unit 3 is removed from the queue and never freed. -/
theorem unit_released_twice_by_two_workers :
    ((run dec_step dec_open dec_double).map fun t =>
        (pushes t.trace, removed t.trace, released t.trace, t.in_queue)) =
      some ([in_buffer (packet 1), in_buffer end_marker, in_buffer (packet 2),
          in_buffer (packet 3)],
        [in_buffer (packet 1), in_buffer end_marker, in_buffer (packet 2),
          in_buffer (packet 3)],
        [in_buffer (packet 1), in_buffer end_marker, in_buffer (packet 2),
          in_buffer (packet 2)], []) ∧
    ((run dec_step dec_open dec_double).map fun t =>
        ((released t.trace).count (in_buffer (packet 2)),
          (released t.trace).count (in_buffer (packet 3)))) = some (2, 0) ∧
    ((run enc_step enc_open enc_double).map fun t =>
        (pushes t.trace, removed t.trace, released t.trace, t.in_queue)) =
      some ([frame 1, frame 2, frame 3], [frame 1, frame 2, frame 3],
        [frame 1, frame 2, frame 2], []) ∧
    ((run enc_step enc_open enc_double).map fun t =>
        ((released t.trace).count (frame 2), (released t.trace).count (frame 3))) =
      some (2, 0) :=
  ⟨rfl, rfl, rfl, rfl⟩

/-! ### C12: releasing a handle twice -/

/-- C12 as stated fails on an open session: two invocations of
`yami_recycle_frame` on handle 7 call `renderDone` twice and free the storage
twice; the state after the second invocation is not the state after the first. -/
theorem recycle_twice_releases_twice :
    yami_recycle_frame release_open (some 7) =
      { session := some dec_open, rendered := [7], freed := [7] } ∧
    yami_recycle_frame (yami_recycle_frame release_open (some 7)) (some 7) =
      { session := some dec_open, rendered := [7, 7], freed := [7, 7] } ∧
    (yami_recycle_frame (yami_recycle_frame release_open (some 7)) (some 7)).rendered.count 7
      = 2 ∧
    (yami_recycle_frame (yami_recycle_frame release_open (some 7)) (some 7)).freed.count 7
      = 2 ∧
    yami_recycle_frame (yami_recycle_frame release_open (some 7)) (some 7) ≠
      yami_recycle_frame release_open (some 7) := by
  decide

/-- The state after `n` invocations on an open session. -/
theorem recycle_times_open (st : ReleaseState) (s : DecSession) (h : Nat)
    (hs : st.session = some s) (he : s.engine = true) (n : Nat) :
    recycle_times n st (some h) =
      { st with rendered := st.rendered ++ List.replicate n h,
                freed := st.freed ++ List.replicate n h } := by
  induction n with
  | zero => simp [recycle_times]
  | succ k ih =>
    rw [recycle_times, ih]
    simp [yami_recycle_frame, hs, he, List.replicate_succ', List.append_assoc]

/-- C12 as amended: while the session is open (the context and its decoder are
non-null), every invocation of `yami_recycle_frame` on a handle calls
`renderDone` for it once and frees its storage once, and leaves the session
alone; `n` invocations on the same handle make `n` calls of `renderDone` and
`n` frees, and the state after the second invocation is not the state after
the first. -/
theorem recycle_releases_once_per_invocation
    (st : ReleaseState) (s : DecSession) (h n : Nat)
    (hs : st.session = some s) (he : s.engine = true) :
    yami_recycle_frame st (some h) =
      { st with rendered := st.rendered ++ [h], freed := st.freed ++ [h] } ∧
    recycle_times n st (some h) =
      { st with rendered := st.rendered ++ List.replicate n h,
                freed := st.freed ++ List.replicate n h } ∧
    (recycle_times n st (some h)).rendered.count h = st.rendered.count h + n ∧
    (recycle_times n st (some h)).freed.count h = st.freed.count h + n ∧
    (recycle_times n st (some h)).session = st.session ∧
    recycle_times 2 st (some h) ≠ recycle_times 1 st (some h) := by
  have hn := recycle_times_open st s h hs he
  refine ⟨?_, hn n, ?_, ?_, ?_, ?_⟩
  · simp [yami_recycle_frame, hs, he]
  · rw [hn n]; simp [List.count_append, List.count_replicate_self]
  · rw [hn n]; simp [List.count_append, List.count_replicate_self]
  · rw [hn n]
  · rw [hn 2, hn 1]
    intro hcontra
    have hlen := congrArg (fun u => u.rendered.length) hcontra
    simp at hlen

/-- C12 as amended, at the open session `release_open` and handle 7, released
three times. -/
theorem recycle_releases_once_per_invocation_witness :
    release_open.session = some dec_open ∧ dec_open.engine = true ∧
    (recycle_times 3 release_open (some 7)).rendered.count 7 = 3 ∧
    (recycle_times 3 release_open (some 7)).freed.count 7 = 3 ∧
    recycle_times 3 release_open (some 7) =
      { session := some dec_open, rendered := [7, 7, 7], freed := [7, 7, 7] } :=
  have h := recycle_releases_once_per_invocation release_open dec_open 7 3 rfl rfl
  ⟨rfl, rfl, h.2.2.1, h.2.2.2.1, h.2.1⟩

/-! ### C13: release after teardown -/

/-- Once `yami_dec_close` has returned, the decoder handle is null. -/
theorem dec_step_closed_engine (s : DecSession) (a : Action AVPacket) (t : DecSession)
    (hs : s.caller = .closed → s.engine = false) (h : dec_step s a = some t) :
    t.caller = .closed → t.engine = false := by
  cases a with
  | call pkt =>
    simp only [dec_step] at h
    repeat' split at h
    all_goals (try simp only [Option.some.injEq, reduceCtorEq] at h)
    all_goals (try subst h)
    all_goals simp_all [Session.log]
  | close =>
    simp only [dec_step] at h
    repeat' split at h
    all_goals (try simp only [Option.some.injEq, reduceCtorEq] at h)
    all_goals (try subst h)
    all_goals simp_all
  | caller out =>
    simp only [dec_step] at h
    split at h
    · unfold yami_dec_close at h
      dsimp only at h
      repeat' split at h
      all_goals (try simp only [Option.some.injEq, reduceCtorEq] at h)
      all_goals (try subst h)
      all_goals simp_all [Session.log]
    · unfold yami_dec_close at h
      dsimp only at h
      repeat' split at h
      all_goals (try simp only [Option.some.injEq, reduceCtorEq] at h)
      all_goals (try subst h)
      all_goals simp_all [Session.log]
    · unfold yami_dec_frame at h
      dsimp only at h
      repeat' split at h
      all_goals (try simp only [Option.some.injEq, reduceCtorEq] at h)
      all_goals (try subst h)
      all_goals simp_all [Session.log]
  | worker w r =>
    simp only [dec_step] at h
    unfold decodeThread at h
    repeat' split at h
    all_goals (try simp only [Option.some.injEq, reduceCtorEq] at h)
    all_goals (try subst h)
    all_goals simp_all [Session.setWorker, Session.log]

/-- C13: in every state a decode session reaches in which `yami_dec_close` has
returned, the decoder handle is null and `yami_recycle_frame` on any handle
changes nothing: no `renderDone`, no `av_free`, same session.  The same holds
in every state for a null handle, and for a null private context. -/
theorem recycle_after_close_is_noop
    (acts : List (Action AVPacket)) (s : DecSession) (st st2 st3 : ReleaseState)
    (data data3 : Option Nat)
    (hrun : run dec_step dec_open acts = some s) (hclosed : s.caller = .closed)
    (hst : st.session = some s) (hst3 : st3.session = none) :
    s.engine = false ∧
    yami_recycle_frame st data = st ∧
    yami_recycle_frame st2 none = st2 ∧
    yami_recycle_frame st3 data3 = st3 := by
  have he : s.engine = false :=
    run_invariant dec_step (fun u => u.caller = .closed → u.engine = false)
      (fun u a t hu hstep => dec_step_closed_engine u a t hu hstep)
      acts dec_open s (by simp [dec_open]) hrun hclosed
  refine ⟨he, ?_, ?_, ?_⟩
  · cases data <;> simp [yami_recycle_frame, hst, he]
  · cases h2 : st2.session <;> simp [yami_recycle_frame, h2]
  · cases data3 <;> simp [yami_recycle_frame, hst3]

/-- C13 at the schedule `dec_closed`, with handle 7 released after the close,
a null handle on an open session, and a null private context. -/
theorem recycle_after_close_is_noop_witness :
    run dec_step dec_open dec_closed = some (after dec_step dec_open dec_closed) ∧
    (after dec_step dec_open dec_closed).caller = .closed ∧
    yami_recycle_frame
        { session := some (after dec_step dec_open dec_closed), rendered := [], freed := [] }
        (some 7) =
      { session := some (after dec_step dec_open dec_closed), rendered := [], freed := [] } ∧
    yami_recycle_frame release_open none = release_open :=
  have h := recycle_after_close_is_noop dec_closed (after dec_step dec_open dec_closed)
    { session := some (after dec_step dec_open dec_closed), rendered := [], freed := [] }
    release_open { session := none, rendered := [], freed := [] } (some 7) (some 7)
    rfl rfl rfl rfl
  ⟨rfl, rfl, h.2.1, h.2.2.1⟩

/-! ### C14: the output pump when the format is known -/

/-- The `getOutput` calls of a history with one more event. -/
theorem fetches_snoc {α : Type} (tr : List (Event α)) (e : Event α) :
    fetches (tr ++ [e]) = fetches tr ++ (match e with | .fetch r => [r] | _ => []) := by
  cases e <;> simp [fetches, List.filterMap_append]

/-- The returns of a history with one more event. -/
theorem returns_snoc {α : Type} (tr : List (Event α)) (e : Event α) :
    returns (tr ++ [e]) =
      returns tr ++ (match e with | .ret code got => [(code, got)] | _ => []) := by
  cases e <;> simp [returns, List.filterMap_append]

/-- A pass of the admission loop of `yami_dec_frame` that leaves the loop
calls nothing and returns nothing. -/
theorem yami_dec_frame_admission_quiet (s : DecSession) (pkt : AVPacket) (out : FetchResult)
    (hc : s.caller = .enqueue pkt)
    (hq : s.status.toNat < ThreadStatus.GOT_EOS.toNat → s.in_queue.length < QUEUE_MAX_SIZE) :
    ∃ t, yami_dec_frame s out = some t ∧ t.caller = .statusUpdate pkt ∧
      t.format_info = s.format_info ∧ fetches t.trace = fetches s.trace ∧
      returns t.trace = returns s.trace := by
  by_cases hst : s.status.toNat < ThreadStatus.GOT_EOS.toNat
  · refine ⟨{ s with in_queue := s.in_queue ++ [in_buffer pkt],
                     caller := .statusUpdate pkt }.log (.push (in_buffer pkt)),
      by simp only [yami_dec_frame, hc, hst, hq hst, if_true], rfl, rfl, ?_, ?_⟩
    · simp [Session.log, fetches_snoc]
    · simp [Session.log, returns_snoc]
  · exact ⟨{ s with caller := .statusUpdate pkt },
      by simp only [yami_dec_frame, hc, hst, if_false], rfl, rfl, rfl, rfl⟩

/-- The status switch of `yami_dec_frame` calls nothing and returns nothing. -/
theorem yami_dec_frame_switch_quiet (s : DecSession) (pkt : AVPacket) (out : FetchResult)
    (hc : s.caller = .statusUpdate pkt) :
    ∃ t, yami_dec_frame s out = some t ∧ t.caller = .getOutput pkt ∧
      t.format_info = s.format_info ∧ fetches t.trace = fetches s.trace ∧
      returns t.trace = returns s.trace := by
  cases hu : (dec_status_switch s.status pkt s.in_queue.isEmpty).2
  · exact ⟨{ s with status := (dec_status_switch s.status pkt s.in_queue.isEmpty).1,
                    caller := .getOutput pkt },
      by simp [yami_dec_frame, hc, hu], rfl, rfl, rfl, rfl⟩
  · refine ⟨{ s with status := (dec_status_switch s.status pkt s.in_queue.isEmpty).1,
                     caller := .getOutput pkt,
                     workers := s.workers ++ [WorkerPc.loopTop] }.log
        (.spawn s.workers.length),
      by simp [yami_dec_frame, hc, hu], rfl, rfl, ?_, ?_⟩
    · simp [Session.log, fetches_snoc]
    · simp [Session.log, returns_snoc]

/-- The pass of the output loop of `yami_dec_frame` when the format is known. -/
theorem yami_dec_frame_pump_known (s : DecSession) (pkt : AVPacket) (out : FetchResult)
    (hc : s.caller = .getOutput pkt) (hf : s.format_info = true) :
    yami_dec_frame s out =
      some (({ s with caller := .idle }.log (.fetch out)).log
        (.ret pkt.size (some (decide (out = FetchResult.Ready))))) := by
  cases out <;> simp [yami_dec_frame, hc, hf, Session.log]

/-- C14: in every state of a decode call at the output loop with the format
information known, the pass calls `getOutput` exactly once and the call
returns: with `*got_frame = 1` exactly when the result is success, and with
`*got_frame = 0` otherwise; the return value is the packet size, which is not
negative.  The buffer made for a reported frame carries `yami_recycle_frame`
as release callback, whatever the pixel format.  The same for a whole call
made between two calls on an open session that leaves its admission loop at
the first pass. -/
theorem output_pump_classification
    (s s0 : DecSession) (pkt pkt0 : AVPacket) (out o1 o2 : FetchResult)
    (pix_fmt : AVPixelFormat) (yami_frame : Nat)
    (hc : s.caller = .getOutput pkt) (hf : s.format_info = true)
    (hc0 : s0.caller = .idle) (he0 : s0.engine = true) (hf0 : s0.format_info = true)
    (hq0 : s0.status.toNat < ThreadStatus.GOT_EOS.toNat →
      s0.in_queue.length < QUEUE_MAX_SIZE) :
    ((yami_dec_frame s out).map fun t => (t.caller, t.trace)) =
      some (.idle,
        s.trace ++ [.fetch out, .ret pkt.size (some (decide (out = .Ready)))]) ∧
    ((yami_dec_frame s out).map fun t => (fetches t.trace, returns t.trace)) =
      some (fetches s.trace ++ [out],
        returns s.trace ++ [((pkt.size : Int), some (decide (out = .Ready)))]) ∧
    (0 : Int) ≤ pkt.size ∧
    (output_buf pix_fmt yami_frame).free = .yami_recycle_frame ∧
    (output_buf pix_fmt yami_frame).data = yami_frame ∧
    ((run dec_step s0 [.call pkt0, .caller o1, .caller o2, .caller out]).map fun t =>
        (t.caller, fetches t.trace, returns t.trace)) =
      some (.idle, fetches s0.trace ++ [out],
        returns s0.trace ++ [((pkt0.size : Int), some (decide (out = .Ready)))]) := by
  have hpump : ∀ (u : DecSession) (p : AVPacket), u.caller = .getOutput p →
      u.format_info = true →
      ((yami_dec_frame u out).map fun t => (t.caller, fetches t.trace, returns t.trace)) =
        some (.idle, fetches u.trace ++ [out],
          returns u.trace ++ [((p.size : Int), some (decide (out = .Ready)))]) := by
    intro u p hu hfu
    rw [yami_dec_frame_pump_known u p out hu hfu]
    simp [Session.log, fetches, returns, List.filterMap_append]
  refine ⟨?_, ?_, Int.natCast_nonneg _, ?_, ?_, ?_⟩
  · rw [yami_dec_frame_pump_known s pkt out hc hf]
    simp [Session.log]
  · rw [yami_dec_frame_pump_known s pkt out hc hf]
    simp [Session.log, fetches, returns, List.filterMap_append]
  · simp [output_buf]
  · simp [output_buf]
  · have h1 : dec_step s0 (.call pkt0) = some { s0 with caller := .enqueue pkt0 } := by
      simp [dec_step, hc0, he0]
    obtain ⟨t2, h2, hc2, hf2, hfe2, hr2⟩ :=
      yami_dec_frame_admission_quiet { s0 with caller := .enqueue pkt0 } pkt0 o1 rfl hq0
    obtain ⟨t3, h3, hc3, hf3, hfe3, hr3⟩ := yami_dec_frame_switch_quiet t2 pkt0 o2 hc2
    have hs2 : dec_step { s0 with caller := .enqueue pkt0 } (.caller o1) = some t2 := by
      simp only [dec_step]; exact h2
    have hs3 : dec_step t2 (.caller o2) = some t3 := by
      simp only [dec_step, hc2]; exact h3
    have hs4 : dec_step t3 (.caller out) = yami_dec_frame t3 out := by
      simp only [dec_step, hc3]
    have hf3' : t3.format_info = true := by rw [hf3, hf2]; exact hf0
    have := hpump t3 pkt0 hc3 hf3'
    simp only [run, h1, hs2, hs3, hs4]
    rw [hfe3, hfe2, hr3, hr2] at this
    cases h4 : yami_dec_frame t3 out with
    | none => simp [h4] at this
    | some t4 => simpa [h4] using this

/-- C14 at the schedules `dec_format_known` (a call at its output loop, the
engine has a frame) and `dec_first_done` (between two calls; packet 2 is
submitted and the engine has a frame). -/
theorem output_pump_classification_witness :
    (after dec_step dec_open dec_format_known).caller = .getOutput (packet 1) ∧
    (after dec_step dec_open dec_format_known).format_info = true ∧
    (after dec_step dec_open dec_first_done).caller = .idle ∧
    (after dec_step dec_open dec_first_done).engine = true ∧
    (after dec_step dec_open dec_first_done).format_info = true ∧
    (after dec_step dec_open dec_first_done).in_queue.length < QUEUE_MAX_SIZE ∧
    ((yami_dec_frame (after dec_step dec_open dec_format_known) .Ready).map fun t =>
        (fetches t.trace, returns t.trace)) =
      some ([.Ready], [(10, some true)]) ∧
    ((run dec_step (after dec_step dec_open dec_first_done)
        [.call (packet 2), .caller .NotReady, .caller .NotReady, .caller .Ready]).map
        fun t => (t.caller, fetches t.trace, returns t.trace)) =
      some (.idle, [.NotReady, .Ready], [(10, some false), (10, some true)]) :=
  have h := output_pump_classification (after dec_step dec_open dec_format_known)
    (after dec_step dec_open dec_first_done) (packet 1) (packet 2) .Ready .NotReady
    .NotReady .YUV420P 7 rfl rfl rfl rfl rfl (fun _ => by decide)
  ⟨rfl, rfl, rfl, rfl, rfl, by decide, h.2.1, h.2.2.2.2.2⟩

/-! ### C15: the output pump without format information -/

/-- A block of `decodeThread` leaves the caller where it is, makes no call of
`getOutput` and no return, and changes the status to nothing but `EXIT`. -/
theorem decodeThread_caller_quiet (s t : DecSession) (w : Nat) (r : SubmitResult)
    (h : decodeThread s w r = some t) :
    t.caller = s.caller ∧ fetches t.trace = fetches s.trace ∧
      returns t.trace = returns s.trace ∧ (t.status = s.status ∨ t.status = .EXIT) := by
  unfold decodeThread at h
  repeat' split at h
  all_goals (try simp only [Option.some.injEq, reduceCtorEq] at h)
  all_goals (try subst h)
  all_goals simp_all [Session.setWorker, Session.log, fetches, returns, List.filterMap_append]

/-- Blocks of worker threads, in any number and order, leave the caller where
it is, make no call of `getOutput` and no return, and do not set `RUNING`. -/
theorem workers_caller_quiet (ws : List (Action AVPacket))
    (hws : ∀ a ∈ ws, ∃ w r, a = Action.worker w r) :
    ∀ s u : DecSession, run dec_step s ws = some u → s.status ≠ .RUNING →
      u.caller = s.caller ∧ fetches u.trace = fetches s.trace ∧
        returns u.trace = returns s.trace ∧ u.status ≠ .RUNING := by
  induction ws with
  | nil =>
    intro s u h hst
    simp only [run, Option.some.injEq] at h
    subst h
    exact ⟨rfl, rfl, rfl, hst⟩
  | cons a ws ih =>
    intro s u h hst
    obtain ⟨w, r, rfl⟩ := hws _ (List.mem_cons_self _ _)
    simp only [run] at h
    cases hstep : dec_step s (.worker w r) with
    | none => simp [hstep] at h
    | some v =>
      simp only [hstep] at h
      have hq := decodeThread_caller_quiet s v w r (by simpa [dec_step] using hstep)
      have hv : v.status ≠ .RUNING := by
        rcases hq.2.2.2 with h1 | h1
        · rw [h1]; exact hst
        · rw [h1]; decide
      obtain ⟨h1, h2, h3, h4⟩ :=
        ih (fun a ha => hws a (List.mem_cons_of_mem _ ha)) v u h hv
      exact ⟨h1.trans hq.1, h2.trans hq.2.1, h3.trans hq.2.2.1, h4⟩

/-- C15: a decode call is at the head of its output loop, no format information
is available and the status is not `RUNING`.  The pass makes no call of
`getOutput` and goes to the loop condition; whatever blocks the worker threads
run in between (`ws`), the loop condition then fails, so the loop ends after
this single pass, and the call returns the packet size, which is not negative.
The call stores nothing in `*got_frame`: the flag, clear when the call was
entered, is 0 at the return, no output. -/
theorem pump_gives_up_without_format
    (s u : DecSession) (pkt : AVPacket) (o1 o2 : FetchResult)
    (ws : List (Action AVPacket)) (entry : Bool)
    (hc : s.caller = .getOutput pkt) (hf : s.format_info = false)
    (hst : s.status ≠ .RUNING)
    (hws : ∀ a ∈ ws, ∃ w r, a = Action.worker w r)
    (hrun : run dec_step s (.caller o1 :: ws) = some u)
    (hentry : entry = false) :
    dec_step s (.caller o1) = some { s with caller := .pumpCond pkt } ∧
    u.caller = .pumpCond pkt ∧ u.status ≠ .RUNING ∧
    dec_step u (.caller o2) =
      some (Session.log { u with caller := .idle } (Event.ret pkt.size none)) ∧
    ((dec_step u (.caller o2)).map fun t => (t.caller, fetches t.trace, returns t.trace)) =
      some (.idle, fetches s.trace, returns s.trace ++ [((pkt.size : Int), none)]) ∧
    (0 : Int) ≤ pkt.size ∧
    got_frame_after entry none = false := by
  have h1 : dec_step s (.caller o1) = some { s with caller := .pumpCond pkt } := by
    simp [dec_step, yami_dec_frame, hc, hf]
  simp only [run, h1] at hrun
  obtain ⟨hcu, hfu, hru, hsu⟩ :=
    workers_caller_quiet ws hws { s with caller := .pumpCond pkt } u hrun hst
  have h2 : dec_step u (.caller o2) =
      some (Session.log { u with caller := .idle } (Event.ret pkt.size none)) := by
    simp [dec_step, yami_dec_frame, hcu, hsu]
  refine ⟨h1, hcu, hsu, h2, ?_, Int.natCast_nonneg _, ?_⟩
  · rw [h2]
    simp only [Option.map_some', Session.log, fetches, returns, List.filterMap_append] at *
    simp [hfu, hru]
  · subst hentry
    rfl

/-- C15 at the schedule `dec_end_call_at_pump`: an end-marker call on a fresh
session, entered with the flag clear, returns 0 and leaves the flag at 0. -/
theorem pump_gives_up_without_format_witness :
    (after dec_step dec_open dec_end_call_at_pump).caller = .getOutput end_marker ∧
    (after dec_step dec_open dec_end_call_at_pump).format_info = false ∧
    (after dec_step dec_open dec_end_call_at_pump).status ≠ .RUNING ∧
    ((run dec_step dec_open (dec_end_call_at_pump ++ [.caller .Ready, .caller .Ready])).map
        fun t => (t.caller, fetches t.trace, returns t.trace)) =
      some (.idle, [], [(0, none)]) ∧
    got_frame_after false none = false :=
  have h := pump_gives_up_without_format (after dec_step dec_open dec_end_call_at_pump)
    { after dec_step dec_open dec_end_call_at_pump with caller := .pumpCond end_marker }
    end_marker .Ready .Ready [] false rfl rfl (by decide)
    (fun a ha => absurd ha (List.not_mem_nil a)) rfl rfl
  ⟨rfl, rfl, by decide, rfl, h.2.2.2.2.2.2⟩

/-! ### C16: backpressure -/

/-- A step that changes nothing can be repeated any number of times. -/
theorem run_replicate_fixed {σ A : Type} (step : σ → A → Option σ) (s : σ) (a : A)
    (h : step s a = some s) (n : Nat) : run step s (List.replicate n a) = some s := by
  induction n with
  | zero => rfl
  | succ k ih =>
    simp only [List.replicate_succ, run, h]
    exact ih

/-- Decode: whenever the display cannot be acquired, the engine cannot be
created or the engine fails to start, `yami_dec_init` returns a negative
value, no worker thread exists and the status is `NOT_INIT`. -/
theorem yami_dec_init_fails (env : InitEnv)
    (h : env.display = false ∨ env.engine = false ∨ env.start = false) :
    ∃ code s, yami_dec_init env = .returned code s ∧ code < 0 ∧ s.workers = [] ∧
      s.status = .NOT_INIT := by
  unfold yami_dec_init
  split
  · next h1 =>
    simp only [Bool.and_eq_true, decide_eq_true_eq] at h1
    exact ⟨_, _, rfl, h1.2, rfl, rfl⟩
  · split
    · exact ⟨_, _, rfl, by decide, rfl, rfl⟩
    · split
      · exact ⟨_, _, rfl, by decide, rfl, rfl⟩
      · split
        · exact ⟨_, _, rfl, by decide, rfl, rfl⟩
        · simp_all

/-- Encode: whenever the engine cannot be created, `yami_enc_init` returns a
negative value, no worker thread exists and the status is `NOT_INIT`. -/
theorem yami_enc_init_fails_without_engine (env : InitEnv) (h : env.engine = false) :
    ∃ code s, yami_enc_init env = .returned code s ∧ code < 0 ∧ s.workers = [] ∧
      s.status = .NOT_INIT := by
  unfold yami_enc_init
  split
  · next h1 =>
    simp only [Bool.and_eq_true, decide_eq_true_eq] at h1
    exact ⟨_, _, rfl, h1.2, rfl, rfl⟩
  · simp only [h, Bool.not_false, if_true]
    exact ⟨_, _, rfl, by decide, rfl, rfl⟩

/-- Both opens return 0 and leave the open session when everything works. -/
theorem init_ok :
    yami_dec_init env_ok = .returned 0 dec_open ∧
    yami_enc_init env_ok = .returned 0 enc_open := by
  decide

/-- C17, evaluated on `yami_enc_init`: when the display cannot be acquired and
everything else works it returns 0, not an error; when the engine fails to
start, with or without a display, it returns 0 if `assert` is compiled out and
aborts the process otherwise.  In all these runs no worker exists and the
status is `NOT_INIT`.  On the same inputs `yami_dec_init` returns -1. -/
theorem enc_init_ignores_display_and_start :
    yami_enc_init { env_ok with display := false } = .returned 0 enc_open ∧
    yami_enc_init { env_ok with start := false, ndebug := true } = .returned 0 enc_open ∧
    yami_enc_init { env_ok with start := false, ndebug := false } =
      .aborted { enc_zero with engine := true } ∧
    yami_enc_init { env_ok with display := false, start := false, ndebug := true } =
      .returned 0 enc_open ∧
    yami_enc_init { env_ok with display := false, start := false, ndebug := false } =
      .aborted { enc_zero with engine := true } ∧
    enc_open.workers = [] ∧ enc_open.status = .NOT_INIT ∧
    (yami_dec_init { env_ok with display := false }).code = some (-1) ∧
    (yami_dec_init { env_ok with start := false, ndebug := true }).code = some (-1) ∧
    (yami_dec_init { env_ok with start := false, ndebug := false }).code = some (-1) := by
  decide

/-! ### C18: size of the staging buffer -/

theorem u32_of_lt {n : Nat} (h : n < 2 ^ 32) : u32 n = n := Nat.mod_eq_of_lt h

/-- What `fillFrameRawData` computes for `I420`, unfolded. -/
theorem fillFrameRawData_I420 (w h data : Nat) :
    fillFrameRawData .I420 w h data =
      some ({ fourcc := .I420, width := w, height := h, handle := data,
              pitch := [u32 w, u32 ((w + 1) / 2), u32 ((w + 1) / 2)],
              offset := [0, u32 (0 + u32 (u32 w * u32 h)),
                u32 (u32 (0 + u32 (u32 w * u32 h)) +
                  u32 (u32 ((w + 1) / 2) * u32 ((h + 1) / 2)))] },
            u32 (u32 (u32 (0 + u32 (u32 w * u32 h)) +
                  u32 (u32 ((w + 1) / 2) * u32 ((h + 1) / 2))) +
              u32 (u32 ((w + 1) / 2) * u32 ((h + 1) / 2)))) := rfl

/-- What `fillFrameRawData` computes for `NV12`, unfolded. -/
theorem fillFrameRawData_NV12 (w h data : Nat) :
    fillFrameRawData .NV12 w h data =
      some ({ fourcc := .NV12, width := w, height := h, handle := data,
              pitch := [u32 w, u32 (w + w % 2), 0],
              offset := [0, u32 (0 + u32 (u32 w * u32 h)), 0] },
            u32 (u32 (0 + u32 (u32 w * u32 h)) +
              u32 (u32 (w + w % 2) * u32 ((h + 1) / 2)))) := rfl

/-- Without wrap-around, the bytes taken by the planes that `fillFrameRawData`
declares are `w * h + 2 * ⌈w/2⌉ * ⌈h/2⌉`, for `I420` and for `NV12`. -/
theorem fillFrameRawData_bytes (w h data : Nat) (hb : (w + 1) * (h + 1) * 3 < 2 ^ 31) :
    (fillFrameRawData .I420 w h data).map Prod.snd =
        some (w * h + 2 * (((w + 1) / 2) * ((h + 1) / 2))) ∧
      (fillFrameRawData .NV12 w h data).map Prod.snd =
        some (w * h + 2 * (((w + 1) / 2) * ((h + 1) / 2))) := by
  have hexp : (w + 1) * (h + 1) = w * h + w + h + 1 := by ring
  have hcw : (w + 1) / 2 ≤ w + 1 := Nat.div_le_self _ _
  have hch : (h + 1) / 2 ≤ h + 1 := Nat.div_le_self _ _
  have hcc : (w + 1) / 2 * ((h + 1) / 2) ≤ (w + 1) * (h + 1) := Nat.mul_le_mul hcw hch
  have hpar : w + w % 2 = 2 * ((w + 1) / 2) := by omega
  have hnv : (w + w % 2) * ((h + 1) / 2) = 2 * ((w + 1) / 2 * ((h + 1) / 2)) := by
    rw [hpar, Nat.mul_assoc]
  generalize hp : w * h = p at *
  generalize hq : (w + 1) / 2 * ((h + 1) / 2) = q at *
  have u1 : u32 w = w := u32_of_lt (by omega)
  have u2 : u32 h = h := u32_of_lt (by omega)
  have u3 : u32 ((w + 1) / 2) = (w + 1) / 2 := u32_of_lt (by omega)
  have u4 : u32 ((h + 1) / 2) = (h + 1) / 2 := u32_of_lt (by omega)
  have u5 : u32 (w + w % 2) = w + w % 2 := u32_of_lt (by omega)
  have u6 : u32 p = p := u32_of_lt (by omega)
  have u7 : u32 q = q := u32_of_lt (by omega)
  have u8 : u32 (p + q) = p + q := u32_of_lt (by omega)
  have u9 : u32 (p + q + q) = p + q + q := u32_of_lt (by omega)
  have u10 : u32 (2 * q) = 2 * q := u32_of_lt (by omega)
  have u11 : u32 (p + 2 * q) = p + 2 * q := u32_of_lt (by omega)
  constructor
  · rw [fillFrameRawData_I420]
    simp only [Option.map_some', u1, u2, u3, u4, hp, hq, u6, u7, u8, u9, Nat.zero_add,
      Option.some.injEq]
    omega
  · rw [fillFrameRawData_NV12]
    simp only [Option.map_some', u1, u2, u4, u5, hp, hnv, u6, u10, u11, Nat.zero_add]

/-- With even width and height the declared planes fill the staging buffer
exactly. -/
theorem staging_layout_fits_even (w h data : Nat) (hw : w % 2 = 0) (hh : h % 2 = 0)
    (hb : (w + 1) * (h + 1) * 3 < 2 ^ 31) :
    (fillFrameRawData .I420 w h data).map Prod.snd = some (m_frameSize w h) ∧
      (fillFrameRawData .NV12 w h data).map Prod.snd = some (m_frameSize w h) := by
  obtain ⟨a, rfl⟩ : ∃ a, w = 2 * a := ⟨w / 2, by omega⟩
  obtain ⟨b, rfl⟩ : ∃ b, h = 2 * b := ⟨h / 2, by omega⟩
  have e1 : (2 * a + 1) / 2 = a := by omega
  have e2 : (2 * b + 1) / 2 = b := by omega
  have e4 : 2 * a * (2 * b) = 4 * (a * b) := by ring
  have hexp : (2 * a + 1) * (2 * b + 1) = 4 * (a * b) + 2 * a + 2 * b + 1 := by ring
  have hm : m_frameSize (2 * a) (2 * b) = 2 * a * (2 * b) + 2 * (a * b) := by
    unfold m_frameSize
    rw [e4]
    generalize a * b = p at *
    rw [u32_of_lt (by omega)]
    omega
  have := fillFrameRawData_bytes (2 * a) (2 * b) data hb
  rw [e1, e2] at this
  rw [hm]
  exact this

/-- C18 (fails): when the width or the height is odd, the planes that
`fillFrameRawData` declares for `I420` and for `NV12` take
`w * h + 2 * ⌈w/2⌉ * ⌈h/2⌉` bytes, which is more than the `m_frameSize =
w * h * 3 / 2` bytes of the staging buffer that `yami_enc_init` allocates. -/
theorem staging_layout_exceeds_buffer (w h data : Nat) (hw : 0 < w) (hh : 0 < h)
    (hodd : w % 2 = 1 ∨ h % 2 = 1) (hb : (w + 1) * (h + 1) * 3 < 2 ^ 31) :
    (fillFrameRawData .I420 w h data).map Prod.snd =
        some (w * h + 2 * (((w + 1) / 2) * ((h + 1) / 2))) ∧
      (fillFrameRawData .NV12 w h data).map Prod.snd =
        some (w * h + 2 * (((w + 1) / 2) * ((h + 1) / 2))) ∧
      m_frameSize w h = w * h * 3 / 2 ∧
      m_frameSize w h < w * h + 2 * (((w + 1) / 2) * ((h + 1) / 2)) := by
  have hbytes := fillFrameRawData_bytes w h data hb
  have hexp : (w + 1) * (h + 1) = w * h + w + h + 1 := by ring
  have hm : m_frameSize w h = w * h * 3 / 2 := by
    unfold m_frameSize
    generalize w * h = p at *
    exact u32_of_lt (by omega)
  refine ⟨hbytes.1, hbytes.2, hm, ?_⟩
  rw [hm]
  have hkey : w * h < 2 * ((w + 1) / 2) * (2 * ((h + 1) / 2)) := by
    rcases hodd with ho | ho
    · have h1 : 2 * ((w + 1) / 2) = w + 1 := by omega
      have h2 : h ≤ 2 * ((h + 1) / 2) := by omega
      rw [h1]
      calc w * h < (w + 1) * h := by nlinarith
        _ ≤ (w + 1) * (2 * ((h + 1) / 2)) := Nat.mul_le_mul_left _ h2
    · have h1 : 2 * ((h + 1) / 2) = h + 1 := by omega
      have h2 : w ≤ 2 * ((w + 1) / 2) := by omega
      rw [h1]
      calc w * h < w * (h + 1) := by nlinarith
        _ ≤ 2 * ((w + 1) / 2) * (h + 1) := Nat.mul_le_mul_right _ h2
  have hre : 2 * ((w + 1) / 2) * (2 * ((h + 1) / 2)) =
      4 * ((w + 1) / 2 * ((h + 1) / 2)) := by ring
  rw [hre] at hkey
  generalize w * h = p at *
  generalize (w + 1) / 2 * ((h + 1) / 2) = q at *
  omega

theorem staging_layout_exceeds_buffer_witness :
    (0 < 3 ∧ 0 < 3 ∧ (3 % 2 = 1 ∨ 3 % 2 = 1) ∧ (3 + 1) * (3 + 1) * 3 < 2 ^ 31) ∧
      ((fillFrameRawData .I420 3 3 0).map Prod.snd =
          some (3 * 3 + 2 * (((3 + 1) / 2) * ((3 + 1) / 2))) ∧
        (fillFrameRawData .NV12 3 3 0).map Prod.snd =
          some (3 * 3 + 2 * (((3 + 1) / 2) * ((3 + 1) / 2))) ∧
        m_frameSize 3 3 = 3 * 3 * 3 / 2 ∧
        m_frameSize 3 3 < 3 * 3 + 2 * (((3 + 1) / 2) * ((3 + 1) / 2))) :=
  ⟨by decide, staging_layout_exceeds_buffer 3 3 0 (by decide) (by decide)
    (Or.inl (by decide)) (by decide)⟩

/-! ### C19: layout of the copy against the declared layout -/

/-- With even width and height and source lines exactly as long as the planes
are wide, the copy of a `YUV420P` frame is laid out as `fillFrameRawData`
declares it. -/
theorem copy_layout_matches_tight_even (w h data : Nat) (hw : w % 2 = 0) (hh : h % 2 = 0)
    (hb : (w + 1) * (h + 1) * 3 < 2 ^ 31) :
    (fillFrameRawData .I420 w h data).map (fun r => (r.1.offset, r.1.pitch)) =
      some ((copy_layout w h w (w / 2) (w / 2)).dst_data,
        (copy_layout w h w (w / 2) (w / 2)).dst_linesize) := by
  obtain ⟨a, rfl⟩ : ∃ a, w = 2 * a := ⟨w / 2, by omega⟩
  obtain ⟨b, rfl⟩ : ∃ b, h = 2 * b := ⟨h / 2, by omega⟩
  have e1 : (2 * a + 1) / 2 = a := by omega
  have e2 : (2 * b + 1) / 2 = b := by omega
  have e3 : 2 * a / 2 = a := by omega
  have e4 : 2 * a * (2 * b) = 4 * (a * b) := by ring
  have hexp : (2 * a + 1) * (2 * b + 1) = 4 * (a * b) + 2 * a + 2 * b + 1 := by ring
  have e5 : 4 * (a * b) / 4 = a * b := by omega
  generalize hp : a * b = p at *
  have u1 : u32 (2 * a) = 2 * a := u32_of_lt (by omega)
  have u2 : u32 (2 * b) = 2 * b := u32_of_lt (by omega)
  have u3 : u32 a = a := u32_of_lt (by omega)
  have u4 : u32 b = b := u32_of_lt (by omega)
  have u5 : u32 (4 * p) = 4 * p := u32_of_lt (by omega)
  have u6 : u32 p = p := u32_of_lt (by omega)
  have u7 : u32 (4 * p + p) = 4 * p + p := u32_of_lt (by omega)
  rw [fillFrameRawData_I420]
  simp only [Option.map_some', copy_layout, e1, e2, e3, u1, u2, u3, u4, e4, hp, u5, u6, u7,
    e5, Nat.zero_add]

/-- C19 (fails): the copy of `encodeThread` and the layout `fillFrameRawData`
declares disagree.  A 100x100 `YUV420P` frame whose lines are padded to 128,
64 and 64 bytes is copied with those strides, and declared with pitches 100,
50 and 50; the same for an `NV12` frame with lines of 128 bytes.  A 3x3
`YUV420P` frame with lines of 3, 2 and 2 bytes has its third plane copied to
offset 11 and declared at offset 13. -/
theorem copy_layout_differs_from_declared :
    staging_fourcc .YUV420P = some .I420 ∧ staging_fourcc .NV12 = some .NV12 ∧
    copy_layout 100 100 128 64 64 =
      { dst_data := [0, 10000, 12500], dst_linesize := [128, 64, 64] } ∧
    (fillFrameRawData .I420 100 100 0).map (fun r => (r.1.offset, r.1.pitch)) =
      some ([0, 10000, 12500], [100, 50, 50]) ∧
    (copy_layout 100 100 128 128 0).dst_linesize.take 2 = [128, 128] ∧
    (fillFrameRawData .NV12 100 100 0).map (fun r => r.1.pitch.take 2) =
      some [100, 100] ∧
    copy_layout 3 3 3 2 2 = { dst_data := [0, 9, 11], dst_linesize := [3, 2, 2] } ∧
    (fillFrameRawData .I420 3 3 0).map (fun r => (r.1.offset, r.1.pitch)) =
      some ([0, 9, 13], [3, 2, 2]) := by
  refine ⟨rfl, rfl, rfl, rfl, rfl, rfl, rfl, rfl⟩

/-! ### C20: end markers in the decode queue -/

/-- With eight queued units, status `NOT_INIT` and no worker, the admission
loop of the ninth call is a fixed point: the only enabled action is another
pass, which changes nothing. -/
theorem dec_ninth_fixed (a : Action AVPacket) (t : DecSession)
    (h : dec_step dec_ninth a = some t) : t = dec_ninth := by
  cases a with
  | call pkt => simp [dec_step, dec_ninth, dec_filled, dec_open] at h
  | close => simp [dec_step, dec_ninth, dec_filled, dec_open] at h
  | caller out =>
    have h2 : dec_step dec_ninth (.caller out) = some dec_ninth := by
      cases out <;> rfl
    rw [h2] at h
    simp only [Option.some.injEq] at h
    exact h.symm
  | worker w r => simp [dec_step, dec_ninth, dec_filled, dec_open, decodeThread] at h

/-- A block of a null-frame call of `yami_enc_frame` leaves the queue alone. -/
theorem yami_enc_frame_null_queue (s t : EncSession) (out : FetchResult)
    (hn : s.caller = .enqueue none ∨ s.caller = .statusUpdate none ∨
      s.caller = .getOutput none)
    (h : yami_enc_frame s out = some t) : t.in_queue = s.in_queue := by
  unfold yami_enc_frame at h
  dsimp only at h
  rcases hn with hn | hn | hn
  all_goals
    rw [hn] at h
    dsimp only at h
    repeat' split at h
    all_goals (try simp only [Option.some.injEq, reduceCtorEq] at h)
    all_goals (try subst h)
    all_goals simp_all [Session.log]

/-- C20: on the decode path, in every state between two calls of an open
session with status `NOT_INIT` and fewer than 8 queued units, a call with an
empty payload appends one empty unit, leaves the status `NOT_INIT` and creates
no worker; on the encode path no block of a null-frame call changes the
queue.  Hence eight end-marker calls on a fresh decode session return and
leave 8 units queued with no worker, and whatever is scheduled after the entry
of a ninth such call, the caller is still at the head of its admission loop
with the same 8 units queued; `n` further passes are enabled and change
nothing. -/
theorem end_markers_fill_decode_queue
    (s : DecSession) (pkt : AVPacket) (o1 o2 out : FetchResult)
    (se te : EncSession) (acts : List (Action AVPacket)) (u : DecSession) (n : Nat)
    (hc : s.caller = .idle) (he : s.engine = true) (hst : s.status = .NOT_INIT)
    (hz : pkt.size = 0) (hq : s.in_queue.length < 8)
    (hn : se.caller = .enqueue none ∨ se.caller = .statusUpdate none ∨
      se.caller = .getOutput none)
    (hstep : yami_enc_frame se out = some te)
    (hrun : run dec_step dec_filled (.call end_marker :: acts) = some u) :
    ((run dec_step s [.call pkt, .caller o1, .caller o2]).map fun t =>
        (t.status, t.workers, t.in_queue, t.caller)) =
      some (.NOT_INIT, s.workers, s.in_queue ++ [in_buffer pkt], .getOutput pkt) ∧
    (in_buffer pkt).size = 0 ∧
    te.in_queue = se.in_queue ∧
    run dec_step dec_open dec_fill = some dec_filled ∧
    dec_filled.in_queue.length = 8 ∧ dec_filled.caller = .idle ∧
    dec_filled.status = .NOT_INIT ∧ dec_filled.workers = [] ∧
    u = dec_ninth ∧ u.caller = .enqueue end_marker ∧ u.in_queue.length = 8 ∧
    run dec_step u (List.replicate n (.caller o1)) = some dec_ninth := by
  have h0 : run dec_step dec_filled (.call end_marker :: acts) =
      run dec_step dec_ninth acts := rfl
  rw [h0] at hrun
  have hu : u = dec_ninth :=
    run_invariant dec_step (fun v => v = dec_ninth)
      (fun v a t hv hs => by subst hv; exact dec_ninth_fixed a t hs)
      acts dec_ninth u rfl hrun
  subst hu
  refine ⟨?_, ?_, yami_enc_frame_null_queue se te out hn hstep, by decide, rfl, rfl, rfl,
    rfl, rfl, rfl, rfl, ?_⟩
  · simp [run, dec_step, yami_dec_frame, dec_status_switch, hc, he, hst, hz, hq,
      ThreadStatus.toNat, QUEUE_MAX_SIZE, Session.log]
  · simp [in_buffer, hz]
  · exact run_replicate_fixed dec_step dec_ninth (.caller o1)
      (by cases o1 <;> rfl) n

/-- C20 at a fresh decode session (first end-marker call), the entry block of a
null-frame call on a fresh encode session, and three passes of the ninth
call. -/
theorem end_markers_fill_decode_queue_witness :
    dec_open.caller = .idle ∧ dec_open.engine = true ∧ dec_open.status = .NOT_INIT ∧
    end_marker.size = 0 ∧ dec_open.in_queue.length < 8 ∧
    yami_enc_frame { enc_open with caller := .enqueue none } .NotReady =
      some { enc_open with caller := .statusUpdate none } ∧
    run dec_step dec_filled
        (.call end_marker :: [.caller .NotReady, .caller .NotReady, .caller .NotReady]) =
      some dec_ninth ∧
    ((run dec_step dec_open [.call end_marker, .caller .NotReady, .caller .NotReady]).map
        fun t => (t.status, t.workers, t.in_queue, t.caller)) =
      some (.NOT_INIT, [], [in_buffer end_marker], .getOutput end_marker) ∧
    dec_ninth.in_queue.length = 8 :=
  have h := end_markers_fill_decode_queue dec_open end_marker .NotReady .NotReady .NotReady
    { enc_open with caller := .enqueue none } { enc_open with caller := .statusUpdate none }
    [.caller .NotReady, .caller .NotReady, .caller .NotReady] dec_ninth 4
    rfl rfl rfl rfl (by decide) (Or.inl rfl) rfl rfl
  ⟨rfl, rfl, rfl, rfl, by decide, rfl, rfl, h.1, h.2.2.2.2.1⟩

end Yami
